import Mathlib

/-!
Shallow embedding of the UFCPredict scrapers (`fight_stat_scraper.py` and
`fighter_stat_scraper.py`) and proofs about the claims of the spec.

Python strings are modelled as Lean `String` (a wrapped `List Char`), and the
handful of Python string primitives the scrapers use (`strip`, `startswith`,
`in`, `replace`, `lower`) are modelled by executable char-list functions.
-/

namespace UFCScrape

/-- Model of the whitespace test used by Python `str.strip`. -/
def pySpace (c : Char) : Bool := c.isWhitespace

/-- Python `str.strip` at the char-list level: drop whitespace from both ends. -/
def stripChars (l : List Char) : List Char :=
  ((l.dropWhile pySpace).reverse.dropWhile pySpace).reverse

/-- Python `str.strip`. -/
def pyStrip (s : String) : String := (stripChars s.toList).asString

/-- Python `str.startswith` at the char-list level; first argument is the pattern. -/
def swChars : List Char → List Char → Bool
  | [], _ => true
  | _ :: _, [] => false
  | p :: ps, c :: cs => p == c && swChars ps cs

/-- Python substring test `pat in s` at the char-list level; first argument is the pattern. -/
def subChars (p : List Char) : List Char → Bool
  | [] => swChars p []
  | c :: cs => swChars p (c :: cs) || subChars p cs

/-- Python `s.startswith(pat)`. -/
def pyStarts (s pat : String) : Bool := swChars pat.toList s.toList

/-- Python `pat in s`. -/
def pyIn (pat s : String) : Bool := subChars pat.toList s.toList

/-- Python `str.replace` (all occurrences) at the char-list level, with explicit
fuel so the recursion is structural (the fuel is the input length, which always
suffices because each step consumes at least one character).
The scrapers only call it with nonempty literal patterns; an empty pattern is
treated as a no-op here. -/
def replCharsAux (pat rep : List Char) : Nat → List Char → List Char
  | _, [] => []
  | 0, l => l
  | fuel + 1, c :: cs =>
    if pat ≠ [] ∧ swChars pat (c :: cs) = true then
      rep ++ replCharsAux pat rep fuel (cs.drop (pat.length - 1))
    else
      c :: replCharsAux pat rep fuel cs

/-- Python `str.replace` (all occurrences) at the char-list level. -/
def replChars (pat rep l : List Char) : List Char :=
  replCharsAux pat rep l.length l

/-- Python `s.replace(pat, rep)`. -/
def pyReplace (s pat rep : String) : String :=
  (replChars pat.toList rep.toList s.toList).asString

/-- Python `str.lower` (simple per-char model). -/
def pyLower (s : String) : String := (s.toList.map Char.toLower).asString

end UFCScrape

namespace UFCScrape

/-- Base site URL, common to both scrapers. -/
def BASE : String := "http://ufcstats.com"

end UFCScrape

namespace UFCScrape.FS

open UFCScrape

/-- Embedding of `normalize_url` from `fight_stat_scraper.py` (lines 68-79). -/
def normalize_url (href : Option String) : Option String :=
  match href with
  | none => none
  | some h =>
    if h = "" then none
    else
      let t := pyStrip h
      if pyStarts t "//" then some ("http:" ++ t)
      else if pyStarts t "/" then some (BASE ++ t)
      else if pyStarts t "http://" || pyStarts t "https://" then some t
      else some (BASE ++ "/" ++ t)

end UFCScrape.FS

namespace UFCScrape.FRS

open UFCScrape

/-- Embedding of `normalize_url` from `fighter_stat_scraper.py` (lines 29-39); its
third branch tests the bare `"http"` instead of the two full schemes. -/
def normalize_url (href : Option String) : Option String :=
  match href with
  | none => none
  | some h =>
    if h = "" then none
    else
      let t := pyStrip h
      if pyStarts t "//" then some ("http:" ++ t)
      else if pyStarts t "/" then some (BASE ++ t)
      else if pyStarts t "http" then some t
      else some (BASE ++ "/" ++ t)

end UFCScrape.FRS

namespace UFCScrape

/-- Outcome of one `requests.get` attempt: a status code with a body, or a
transport error (exception). -/
inductive Resp where
  | ok (status : Nat) (text : String)
  | err
deriving DecidableEq

/-- Is the response an HTTP 200 success (`r.status_code == 200`)? -/
def isSuccess : Resp → Bool
  | .ok status _ => status == 200
  | .err => false

/-- State threaded through the fetch layer: the on-disk HTML cache (keyed by the
URL whose md5 names the file; the hash is injective for the model), the network
environment (the sequence of responses successive attempts would receive; an
exhausted list behaves as a transport error), and a counter of network calls
issued. -/
structure NetState where
  cache : List (String × String)
  transport : List Resp
  calls : Nat
deriving DecidableEq

/-- Lookup in the cache (first matching key). -/
def lookupCache : List (String × String) → String → Option String
  | [], _ => none
  | (k, v) :: rest, u => if k = u then some v else lookupCache rest u

end UFCScrape

namespace UFCScrape.FS

open UFCScrape

/-- The retry loop of `fetch_cached` (lines 42-57): up to `n` attempts, each
consuming one network response and counting one call; a 200 response stores the
body in the cache and returns it, anything else retries. -/
def attemptLoop (url : String) : Nat → NetState → Option String × NetState
  | 0, st => (none, st)
  | n + 1, st =>
    match st.transport with
    | [] =>
      attemptLoop url n { st with calls := st.calls + 1 }
    | r :: rest =>
      let st' : NetState := { st with transport := rest, calls := st.calls + 1 }
      match r with
      | .ok status text =>
        if status = 200 then (some text, { st' with cache := (url, text) :: st'.cache })
        else attemptLoop url n st'
      | .err => attemptLoop url n st'

/-- Embedding of `fetch_cached` (lines 21-57): return the cached HTML when the
cache file exists, otherwise run up to 5 download attempts. -/
def fetch_cached (st : NetState) (url : String) : Option String × NetState :=
  match lookupCache st.cache url with
  | some c => (some c, st)
  | none => attemptLoop url 5 st

end UFCScrape.FS

namespace UFCScrape.FRS

open UFCScrape

/-- The retry loop of the fighter scraper's `get_soup` (lines 14-23): up to `n`
attempts, no cache interaction at all; a 200 response returns the body. -/
def attemptLoopNC : Nat → NetState → Option String × NetState
  | 0, st => (none, st)
  | n + 1, st =>
    match st.transport with
    | [] =>
      attemptLoopNC n { st with calls := st.calls + 1 }
    | r :: rest =>
      let st' : NetState := { st with transport := rest, calls := st.calls + 1 }
      match r with
      | .ok status text =>
        if status = 200 then (some text, st')
        else attemptLoopNC n st'
      | .err => attemptLoopNC n st'

/-- Embedding of `get_soup` from `fighter_stat_scraper.py` (lines 8-23): a plain
uncached fetch with 5 attempts. -/
def get_soup (st : NetState) (_url : String) : Option String × NetState :=
  attemptLoopNC 5 st

end UFCScrape.FRS

namespace UFCScrape.FS

open UFCScrape

/-- The anchor filter of `get_all_event_links` (lines 92-94): keep an href when
it contains `"event-details"`, normalized. -/
def keepEvent (h : String) : Option String :=
  if pyIn "event-details" h then normalize_url (some h) else none

/-- Embedding of `get_all_event_links` (lines 82-98).  The soup is modelled as
the list of href attributes of the page's anchors (`find_all("a", href=True)`);
a failed fetch is `none` and yields an empty list.  Hrefs containing
`"event-details"` are normalized, collected into a set and sorted. -/
def get_all_event_links (soup : Option (List String)) : List String :=
  match soup with
  | none => []
  | some hrefs => ((hrefs.filterMap keepEvent).toFinset).sort (· ≤ ·)

/-- An event page as seen by `get_event_fights` (lines 101-119): the hrefs of
anchors inside `tr.b-fight-details__table-row` rows, and the hrefs of all
anchors on the page (used by the fallback scan). -/
structure EventPage where
  rowAnchors : List String
  allAnchors : List String
deriving DecidableEq

/-- The anchor filter for fight links: keep an href when it contains
`"fight-details"` (the CSS attribute selector resp. the fallback substring
test), normalized. -/
def keepFight (h : String) : Option String :=
  if pyIn "fight-details" h then normalize_url (some h) else none

/-- Embedding of `get_event_fights` (lines 101-119): collect fight links from
the row-scoped selector; if that set is empty, fall back to scanning every
anchor; sort the resulting set. -/
def get_event_fights (soup : Option EventPage) : List String :=
  match soup with
  | none => []
  | some pg =>
    let primarySet := (pg.rowAnchors.filterMap keepFight).toFinset
    let fightSet :=
      if primarySet = ∅ then (pg.allAnchors.filterMap keepFight).toFinset else primarySet
    fightSet.sort (· ≤ ·)

end UFCScrape.FS

namespace UFCScrape.FRS

open UFCScrape

/-- The anchor filter of `get_all_fighter_links` (line 55): the CSS selector
keeps black-link anchors whose href contains `"fighter-details"`; the kept href
is normalized. -/
def keepFighter (h : String) : Option String :=
  if pyIn "fighter-details" h then normalize_url (some h) else none

/-- Embedding of `get_all_fighter_links` (lines 45-60).  `pages` holds, for each
letter of the alphabet in order, either `none` (fetch failed, letter skipped) or
the list of href attributes of the black-link anchors of that index page.  All
links go into one set, sorted at the end. -/
def get_all_fighter_links (pages : List (Option (List String))) : List String :=
  (pages.foldl
    (fun acc p =>
      match p with
      | none => acc
      | some hrefs => acc ∪ (hrefs.filterMap keepFighter).toFinset)
    (∅ : Finset String)).sort (· ≤ ·)

end UFCScrape.FRS

namespace UFCScrape.FS

open UFCScrape

/-- One `div.b-fight-details__person` panel: the (already `strip=True`) text of
its `h3` name element and of its `i` status element, each `none` when the
element is absent (`safe_text`, lines 122-123 and 170-174). -/
structure Panel where
  name : Option String
  status : Option String
deriving DecidableEq

/-- One `td` of the totals row: the raw texts of its `p` children (lines
213-217). -/
structure Cell where
  ps : List String
deriving DecidableEq

/-- The `div.b-fight-details__content` block: the raw text of the
`i.b-fight-details__text-item_first` element when present, and the raw texts of
the `i.b-fight-details__text-item` elements (lines 181-194). -/
structure FightInfo where
  methodText : Option String
  items : List String
deriving DecidableEq

/-- An event page as read during date resolution (lines 150-158): when the
`i.b-list__box-item-title` element whose string contains `"Date"` exists,
`dateRaw` holds its parent's `get_text(" ", strip=True)`; otherwise `none`. -/
structure EventSoup where
  dateRaw : Option String
deriving DecidableEq

/-- A fight page as read by `parse_fight`:
`eventLink` is the `a.b-fight-details__event-link` element (`some h` when it
exists with href attribute `h`, a doubly-optional value because `.get("href")`
itself may be `None`); `anchors` are the hrefs of all anchors (fallback event
link scan); `persons` the fighter panels; `fightInfo` the content block;
`totals` is `none` when no `p` containing `"Totals"` exists, `some none` when
that section has no following `table` (an `AttributeError` in the source), and
`some (some rows)` with the `tbody tr` rows otherwise.  A row is its list of
`td` cells. -/
structure FightPage where
  eventLink : Option (Option String)
  anchors : List String
  persons : List Panel
  fightInfo : Option FightInfo
  totals : Option (Option (List (List Cell)))
deriving DecidableEq

/-- The record assembled by `parse_fight` (lines 224-235).  The per-corner
statistics dictionary is modelled as an association list in insertion order. -/
structure FightRecord where
  fight_url : String
  event_url : Option String
  date : Option String
  winner : String
  red_name : Option String
  blue_name : Option String
  method : Option String
  round : Option String
  time : Option String
  stats : List (String × Option String)
deriving DecidableEq

/-- The statistics labels (lines 207-208). -/
def statLabels : List String :=
  ["KD", "SIG_STR", "SIG_STR_pct", "TOTAL_STR", "TD", "TD_pct", "SUB_ATT", "REV", "CTRL"]

/-- Event link resolution (lines 133-140): the specific event-link anchor when
present, else the first anchor whose href contains `"event-details"`. -/
def eventUrlOf (page : FightPage) : Option String :=
  match page.eventLink with
  | some href => normalize_url href
  | none =>
    match page.anchors.find? (fun h => pyIn "event-details" h) with
    | some h => normalize_url (some h)
    | none => none

/-- Event date resolution (lines 144-160): fetch the event page, read the text
next to the `"Date:"` caption, strip the caption and fuzzily parse.  `fuzzy`
models `dateutil.parser.parse(·, fuzzy=True).date()`, returning `none` when the
library raises (the `except: pass`). -/
def dateOf (fetchEvent : String → Option EventSoup) (fuzzy : String → Option String)
    (page : FightPage) : Option String :=
  match eventUrlOf page with
  | none => none
  | some u =>
    match fetchEvent u with
    | none => none
    | some ev =>
      match ev.dateRaw with
      | none => none
      | some raw => fuzzy (pyStrip (pyReplace raw "Date:" ""))

/-- Method extraction (lines 185-187). -/
def methodOf (fi : FightInfo) : Option String :=
  fi.methodText.map (fun t => pyStrip (pyReplace t "Method:" ""))

/-- Round and time extraction (lines 189-194): scan the text items; on each
match the value is overwritten, so the last matching item wins. -/
def roundTimeOf (fi : FightInfo) : Option String × Option String :=
  fi.items.foldl
    (fun acc raw =>
      let t := pyStrip raw
      let r := if pyStarts t "Round:" then some (pyStrip (pyReplace t "Round:" "")) else acc.1
      let tm := if pyStarts t "Time:" then some (pyStrip (pyReplace t "Time:" "")) else acc.2
      (r, tm))
    (none, none)

/-- Red and blue values of one statistics cell (lines 215-217): the stripped
texts of the first and second `p` child, `none` when absent. -/
def cellVals (c : Cell) : Option String × Option String :=
  ((c.ps[0]?).map pyStrip, (c.ps[1]?).map pyStrip)

/-- Fold of cell/label pairs into the statistics association list. -/
def statsFold (pairs : List (Cell × String)) : List (String × Option String) :=
  pairs.foldr
    (fun p acc =>
      ("red_" ++ p.2, (cellVals p.1).1) :: ("blue_" ++ p.2, (cellVals p.1).2) :: acc)
    []

/-- The statistics pairs in insertion order (lines 210-219): for the `i`-th data
cell, the `red_`/`blue_` entries under the `i`-th label. -/
def statsOf (tds : List Cell) : List (String × Option String) :=
  statsFold (tds.zip statLabels)

/-- Embedding of `parse_fight` (lines 125-235) on an already fetched page
(`none` = fetch failed).  `Except.error ()` models an uncaught Python exception
inside `parse_fight` (missing totals table, or a totals row with more data
cells than labels); `Except.ok none` models `return None`. -/
def parse_fight (fetchEvent : String → Option EventSoup) (fuzzy : String → Option String)
    (fight_url : String) (soup : Option FightPage) : Except Unit (Option FightRecord) :=
  match soup with
  | none => .ok none
  | some page =>
    let event_url := eventUrlOf page
    let date := dateOf fetchEvent fuzzy page
    match page.persons with
    | [p0, p1] =>
      let red_status := p0.status.getD ""
      let blue_status := p1.status.getD ""
      let winner :=
        if red_status = "W" then "red" else if blue_status = "W" then "blue" else "none"
      let mrt :=
        match page.fightInfo with
        | none => ((none : Option String), (none : Option String), (none : Option String))
        | some fi => (methodOf fi, (roundTimeOf fi).1, (roundTimeOf fi).2)
      match page.totals with
      | none => .ok none
      | some none => .error ()
      | some (some rows) =>
        match rows with
        | [row] =>
          let tds := row.drop 1
          if tds.length ≤ statLabels.length then
            .ok (some
              { fight_url := fight_url
                event_url := event_url
                date := date
                winner := winner
                red_name := p0.name
                blue_name := p1.name
                method := mrt.1
                round := mrt.2.1
                time := mrt.2.2
                stats := statsOf tds })
          else .error ()
        | _ => .ok none
    | _ => .ok none

/-- The winner field of a `parse_fight` result, when a record was produced. -/
def winnerOf (r : Except Unit (Option FightRecord)) : Option String :=
  match r with
  | .ok (some rec) => some rec.winner
  | _ => none

end UFCScrape.FS

namespace UFCScrape.FRS

open UFCScrape

/-- One `li` of the personal-info box: the raw text of its
`i.b-list__box-item-title` child when present, and the raw text of the whole
item (lines 83-94). -/
structure LItem where
  title : Option String
  text : String
deriving DecidableEq

/-- A fighter page as read by `parse_fighter`: the raw texts of the two header
elements when present, the personal-info list items, and the raw texts of the
left and right career-statistics list items. -/
structure FighterPage where
  name : Option String
  record : Option String
  info : List LItem
  leftStats : List String
  rightStats : List String
deriving DecidableEq

/-- The record assembled by `parse_fighter` (lines 136-153). -/
structure FighterRecord where
  fighter_url : String
  name : Option String
  record : Option String
  height : Option String
  weight : Option String
  reach : Option String
  stance : Option String
  dob : Option String
  SLpM : Option String
  SApM : Option String
  Str_Acc : Option String
  Str_Def : Option String
  TD_Avg : Option String
  TD_Acc : Option String
  TD_Def : Option String
  Sub_Avg : Option String
deriving DecidableEq

/-- The nested `extract` of `parse_fighter` (lines 85-94): find the first list
item whose (stripped, lowercased) title starts with the (lowercased) label; the
value is the item's text with the raw title text removed, stripped, and `none`
when that remainder is empty.  The scan stops at the first title match even
when it produces an empty value. -/
def extractInfo (info : List LItem) (label : String) : Option String :=
  match info.find?
      (fun li =>
        match li.title with
        | none => false
        | some ti => pyStarts (pyLower (pyStrip ti)) (pyLower label)) with
  | none => none
  | some li =>
    match li.title with
    | none => none
    | some ti =>
      let raw := pyStrip (pyReplace li.text ti "")
      if raw = "" then none else some raw

/-- The nested `get_left`/`get_right` of `parse_fighter` (lines 107-129): find
the first item whose stripped text starts with the label, remove the label and
strip; an empty remainder is returned as the empty string, not `none`. -/
def getPre (items : List String) (label : String) : Option String :=
  match items.find? (fun raw => pyStarts (pyStrip raw) label) with
  | none => none
  | some raw => some (pyStrip (pyReplace (pyStrip raw) label ""))

/-- The record `parse_fighter` builds from a successfully fetched page: every
field is extracted independently and defaults to `none`. -/
def parse_fighter_page (url : String) (page : FighterPage) : FighterRecord :=
  { fighter_url := url
    name := page.name.map pyStrip
    record := page.record.map (fun t => pyStrip (pyReplace t "Record:" ""))
    height := extractInfo page.info "Height"
    weight := extractInfo page.info "Weight"
    reach := extractInfo page.info "Reach"
    stance := extractInfo page.info "STANCE"
    dob := extractInfo page.info "DOB"
    SLpM := getPre page.leftStats "SLpM:"
    Str_Acc := getPre page.leftStats "Str. Acc.:"
    SApM := getPre page.leftStats "SApM:"
    Str_Def := getPre page.leftStats "Str. Def."
    TD_Avg := getPre page.rightStats "TD Avg.:"
    TD_Acc := getPre page.rightStats "TD Acc.:"
    TD_Def := getPre page.rightStats "TD Def.:"
    Sub_Avg := getPre page.rightStats "Sub. Avg.:" }

/-- Embedding of `parse_fighter` (lines 66-153) on an already fetched page
(`none` = fetch failed). -/
def parse_fighter (url : String) (soup : Option FighterPage) : Option FighterRecord :=
  match soup with
  | none => none
  | some page => some (parse_fighter_page url page)

end UFCScrape.FRS

namespace UFCScrape

/-- One write to the tabular sink: a periodic snapshot (`snap`, labelled with
the `i+1` used in the partial CSV's file name) or the unconditional final save
(`last`). -/
inductive SinkWrite (α : Type) where
  | snap (label : Nat) (rows : List α)
  | last (rows : List α)
deriving DecidableEq

/-- The shared shape of both orchestrator loops: process the URLs in completion
order starting at loop index `i`, appending each non-`none` result, and after
the unit with index `i` write a snapshot of everything accumulated so far
whenever `(i + 1) % N == 0`; after the loop, always write the final save.
The fight scraper enumerates from 0 (`scrape_all`, lines 259-278), the fighter
scraper from 1 (`scrape_fighters`, lines 164-178). -/
def processAux {α : Type} (parse : String → Option α) (N : Nat) :
    List String → Nat → List α → List α × List (SinkWrite α)
  | [], _, acc => (acc, [.last acc])
  | u :: us, i, acc =>
    let acc' :=
      match parse u with
      | some r => acc ++ [r]
      | none => acc
    let rest := processAux parse N us (i + 1) acc'
    if (i + 1) % N = 0 then (rest.1, .snap (i + 1) acc' :: rest.2) else rest

end UFCScrape

namespace UFCScrape.FS

open UFCScrape

/-- Tier-2 link discovery of `scrape_all` (lines 241-246): the union of every
event's fight links, sorted. -/
def eventFightLinks (events : List String) (eventPages : String → Option EventPage) :
    List String :=
  ((events.foldl (fun acc e => acc ∪ (get_event_fights (eventPages e)).toFinset)
      (∅ : Finset String)).sort (· ≤ ·))

/-- Embedding of `scrape_all` (lines 238-279).  The page environments stand for
what the (cached) fetches of the various URLs yield; the worker pool's
completion order is the deterministic order of the sorted link list.  A worker
whose `parse_fight` raises is caught by the orchestrator and contributes no
record, exactly like a `None` result. -/
def scrape_all (eventsSoup : Option (List String)) (eventPages : String → Option EventPage)
    (fetchEvent : String → Option EventSoup) (fuzzy : String → Option String)
    (fightSoups : String → Option FightPage) (save_every : Nat) :
    List FightRecord × List (SinkWrite FightRecord) :=
  let events := get_all_event_links eventsSoup
  let fight_links := eventFightLinks events eventPages
  processAux
    (fun u =>
      match parse_fight fetchEvent fuzzy u (fightSoups u) with
      | .ok r => r
      | .error _ => none)
    save_every fight_links 0 []

end UFCScrape.FS

namespace UFCScrape.FRS

open UFCScrape

/-- The per-fighter loop of `scrape_fighters` (lines 163-176): enumeration
starts at 1 while the snapshot condition still tests `(i + 1) % save_every`. -/
def processFighters (urls : List String) (parse : String → Option FighterRecord)
    (save_every : Nat) : List FighterRecord × List (SinkWrite FighterRecord) :=
  processAux parse save_every urls 1 []

/-- Embedding of `scrape_fighters` (lines 159-179). -/
def scrape_fighters (pages : List (Option (List String)))
    (fighterSoups : String → Option FighterPage) (save_every : Nat) :
    List FighterRecord × List (SinkWrite FighterRecord) :=
  let links := get_all_fighter_links pages
  processFighters links (fun u => parse_fighter u (fighterSoups u)) save_every

/-- A stub fighter record for a given URL (what `parse_fighter` yields on an
entirely empty profile page). -/
def mkFR (u : String) : FighterRecord :=
  ⟨u, none, none, none, none, none, none, none, none, none, none, none, none, none, none, none⟩

end UFCScrape.FRS

namespace UFCScrape.FS

/-- A structurally valid sample fight page whose two panels both carry the `"W"`
status marker (malformed input per the spec): two panels, a Totals section with
a following table holding exactly one row, whose first cell is the fighter-name
column and whose single data cell has a `p` pair. -/
def bothWPage : FightPage :=
  { eventLink := none
    anchors := []
    persons := [{ name := some "A", status := some "W" }, { name := some "B", status := some "W" }]
    fightInfo := none
    totals := some (some [[{ ps := [] }, { ps := ["1", "0"] }]]) }

/-- A structurally valid sample fight page where only the first panel carries
the `"W"` marker. -/
def redWPage : FightPage :=
  { eventLink := none
    anchors := []
    persons := [{ name := some "A", status := some "W" }, { name := some "B", status := some "L" }]
    fightInfo := none
    totals := some (some [[{ ps := [] }, { ps := ["1", "0"] }]]) }

/-- A structurally valid sample fight page with every optional descriptive field
absent: no event link, no content block, an empty data cell. -/
def gatePage : FightPage :=
  { eventLink := none
    anchors := []
    persons := [{ name := none, status := none }, { name := none, status := none }]
    fightInfo := none
    totals := some (some [[{ ps := [] }, { ps := [] }]]) }

/-- A structurally valid sample fight page that carries the specific event-link
anchor. -/
def datePage : FightPage :=
  { eventLink := some (some "/event-details/e1")
    anchors := []
    persons := [{ name := none, status := none }, { name := none, status := none }]
    fightInfo := none
    totals := some (some [[{ ps := [] }, { ps := [] }]]) }

end UFCScrape.FS

namespace UFCScrape

open UFCScrape

/-- C1 (amended) below is stated through this record; the original claim's
both-marked case is refuted by `claim1_counterexample`. -/
theorem claim1_amended_winner (fe : String → Option FS.EventSoup)
    (fz : String → Option String) (url : String) (page : FS.FightPage)
    (p0 p1 : FS.Panel) (row : List FS.Cell)
    (hp : page.persons = [p0, p1]) (ht : page.totals = some (some [row]))
    (hlen : (row.drop 1).length ≤ 9) :
    ∃ r, FS.parse_fight fe fz url (some page) = .ok (some r) ∧
      (p0.status.getD "" = "W" → r.winner = "red") ∧
      (p0.status.getD "" ≠ "W" → p1.status.getD "" = "W" → r.winner = "blue") ∧
      (p0.status.getD "" ≠ "W" → p1.status.getD "" ≠ "W" → r.winner = "none") := by
  have h9 : (row.drop 1).length ≤ FS.statLabels.length := by
    simpa [FS.statLabels] using hlen
  simp only [FS.parse_fight, hp, ht, if_pos h9]
  refine ⟨_, rfl, ?_, ?_, ?_⟩
  · intro h0
    simp [h0]
  · intro h0 h1
    simp [h0, h1]
  · intro h0 h1
    simp [h0, h1]

/-- C1: counterexample.  The claim states that when both panels bear the `"W"`
marker the winner is `none`; on `bothWPage` (both statuses `"W"`, otherwise
structurally valid) the code resolves the winner to `"red"` — the first
panel's marker wins. -/
theorem claim1_counterexample :
    FS.winnerOf (FS.parse_fight (fun _ => none) (fun _ => none) "u" (some FS.bothWPage)) =
        some "red" ∧
      FS.winnerOf (FS.parse_fight (fun _ => none) (fun _ => none) "u" (some FS.bothWPage)) ≠
        some "none" := by
  decide

/-- C1: witness for `claim1_amended_winner` at the concrete page `redWPage`. -/
theorem claim1_witness :
    ∃ r, FS.parse_fight (fun _ => none) (fun _ => none) "u" (some FS.redWPage) =
        Except.ok (some r) ∧
      ((some "W" : Option String).getD "" = "W" → r.winner = "red") ∧
      ((some "W" : Option String).getD "" ≠ "W" → (some "L" : Option String).getD "" = "W" →
        r.winner = "blue") ∧
      ((some "W" : Option String).getD "" ≠ "W" → (some "L" : Option String).getD "" ≠ "W" →
        r.winner = "none") :=
  claim1_amended_winner (fun _ => none) (fun _ => none) "u" FS.redWPage
    ⟨some "A", some "W"⟩ ⟨some "B", some "L"⟩ [⟨[]⟩, ⟨["1", "0"]⟩]
    (by decide) (by decide) (by decide)

/-- Helper: a cell/label pair contributes both of its entries to the fold. -/
theorem mem_statsFold {pairs : List (FS.Cell × String)} {c : FS.Cell} {lab : String}
    (h : (c, lab) ∈ pairs) :
    ("red_" ++ lab, (FS.cellVals c).1) ∈ FS.statsFold pairs ∧
      ("blue_" ++ lab, (FS.cellVals c).2) ∈ FS.statsFold pairs := by
  induction pairs with
  | nil => cases h
  | cons p rest ih =>
    rcases List.mem_cons.mp h with hEq | hMem
    · subst hEq
      constructor
      · exact List.mem_cons_self _ _
      · exact List.mem_cons_of_mem _ (List.mem_cons_self _ _)
    · have := ih hMem
      exact ⟨List.mem_cons_of_mem _ (List.mem_cons_of_mem _ this.1),
        List.mem_cons_of_mem _ (List.mem_cons_of_mem _ this.2)⟩

/-- C2: mandatory-field gating of `parse_fight`.  The three structural gates
(not exactly two fighter panels; missing Totals section; not exactly one
aggregate row) each return `none`, while on a structurally valid page (two
panels, a Totals table with exactly one row whose data cells fit the expected
label list) a record is always produced, and each optional descriptive field —
method, round, time, event url/date, any single statistic — independently
defaults to `none` when its markup is absent. -/
theorem claim2_mandatory_gating :
    (∀ fe fz url (page : FS.FightPage), page.persons.length ≠ 2 →
      FS.parse_fight fe fz url (some page) = .ok none) ∧
    (∀ fe fz url (page : FS.FightPage) p0 p1, page.persons = [p0, p1] →
      page.totals = none →
      FS.parse_fight fe fz url (some page) = .ok none) ∧
    (∀ fe fz url (page : FS.FightPage) p0 p1 rows, page.persons = [p0, p1] →
      page.totals = some (some rows) → rows.length ≠ 1 →
      FS.parse_fight fe fz url (some page) = .ok none) ∧
    (∀ fe fz url (page : FS.FightPage) p0 p1 row, page.persons = [p0, p1] →
      page.totals = some (some [row]) → (row.drop 1).length ≤ 9 →
      ∃ r, FS.parse_fight fe fz url (some page) = .ok (some r) ∧
        (page.fightInfo = none → r.method = none ∧ r.round = none ∧ r.time = none) ∧
        (∀ fi, page.fightInfo = some fi → fi.methodText = none → r.method = none) ∧
        (∀ fi, page.fightInfo = some fi → fi.items = [] →
          r.round = none ∧ r.time = none) ∧
        (page.eventLink = none → (∀ a ∈ page.anchors, pyIn "event-details" a = false) →
          r.event_url = none ∧ r.date = none) ∧
        (∀ c lab, (c, lab) ∈ (row.drop 1).zip FS.statLabels → c.ps = [] →
          ("red_" ++ lab, none) ∈ r.stats ∧ ("blue_" ++ lab, none) ∈ r.stats)) := by
  refine ⟨?_, ?_, ?_, ?_⟩
  · intro fe fz url page hlen
    rcases hpp : page.persons with _ | ⟨a, _ | ⟨b, _ | ⟨c, rest⟩⟩⟩
    · simp [FS.parse_fight, hpp]
    · simp [FS.parse_fight, hpp]
    · exact absurd (by simp [hpp]) hlen
    · simp [FS.parse_fight, hpp]
  · intro fe fz url page p0 p1 hp ht
    simp [FS.parse_fight, hp, ht]
  · intro fe fz url page p0 p1 rows hp ht hlen
    rcases rows with _ | ⟨r0, _ | ⟨r1, rest⟩⟩
    · simp [FS.parse_fight, hp, ht]
    · exact absurd (by simp : [r0].length = 1) hlen
    · simp [FS.parse_fight, hp, ht]
  · intro fe fz url page p0 p1 row hp ht hlen
    have h9 : (row.drop 1).length ≤ FS.statLabels.length := by
      simpa [FS.statLabels] using hlen
    simp only [FS.parse_fight, hp, ht, if_pos h9]
    refine ⟨_, rfl, ?_, ?_, ?_, ?_, ?_⟩
    · intro hfi
      simp [hfi]
    · intro fi hfi hmt
      simp [hfi, FS.methodOf, hmt]
    · intro fi hfi hit
      simp [hfi, FS.roundTimeOf, hit]
    · intro hlink hanch
      have hfind : page.anchors.find? (fun h => pyIn "event-details" h) = none := by
        apply List.find?_eq_none.mpr
        intro a ha
        simp [hanch a ha]
      constructor
      · simp [FS.eventUrlOf, hlink, hfind]
      · simp [FS.dateOf, FS.eventUrlOf, hlink, hfind]
    · intro c lab hmem hps
      have := mem_statsFold hmem
      have hcv : FS.cellVals c = (none, none) := by
        simp [FS.cellVals, hps]
      simp only [FS.statsOf]
      rw [hcv] at this
      exact this

/-- C2: witness for the positive branch of `claim2_mandatory_gating` at the
concrete page `gatePage`. -/
theorem claim2_witness :
    ∃ r, FS.parse_fight (fun _ => none) (fun _ => none) "u" (some FS.gatePage) =
        .ok (some r) ∧
      (FS.gatePage.fightInfo = none → r.method = none ∧ r.round = none ∧ r.time = none) ∧
      (∀ fi, FS.gatePage.fightInfo = some fi → fi.methodText = none → r.method = none) ∧
      (∀ fi, FS.gatePage.fightInfo = some fi → fi.items = [] →
        r.round = none ∧ r.time = none) ∧
      (FS.gatePage.eventLink = none →
        (∀ a ∈ FS.gatePage.anchors, pyIn "event-details" a = false) →
        r.event_url = none ∧ r.date = none) ∧
      (∀ c lab,
        (c, lab) ∈ (([⟨[]⟩, ⟨[]⟩] : List FS.Cell).drop 1).zip FS.statLabels → c.ps = [] →
        ("red_" ++ lab, none) ∈ r.stats ∧ ("blue_" ++ lab, none) ∈ r.stats) :=
  claim2_mandatory_gating.2.2.2 (fun _ => none) (fun _ => none) "u" FS.gatePage
    ⟨none, none⟩ ⟨none, none⟩ [⟨[]⟩, ⟨[]⟩] (by decide) (by decide) (by decide)

/-- C9: event-date tolerance of `parse_fight`.  On a structurally valid page the
event URL comes from the specific event-link anchor when present (its possibly
missing href normalized), else from a fallback scan for an anchor whose href
contains `"event-details"`; the date is the fuzzy parse of the text after the
`"Date:"` caption of the fetched event page; and every failure along that chain
(no link, failed event fetch, missing caption, parse exception modelled by
`fz` returning `none`) leaves the date `none` while the record is still
returned. -/
theorem claim9_event_date (fe : String → Option FS.EventSoup) (fz : String → Option String)
    (url : String) (page : FS.FightPage) (p0 p1 : FS.Panel) (row : List FS.Cell)
    (hp : page.persons = [p0, p1]) (ht : page.totals = some (some [row]))
    (hlen : (row.drop 1).length ≤ 9) :
    ∃ r, FS.parse_fight fe fz url (some page) = .ok (some r) ∧
      (∀ h, page.eventLink = some h → r.event_url = FS.normalize_url h) ∧
      (page.eventLink = none →
        ∀ a, page.anchors.find? (fun x => pyIn "event-details" x) = some a →
          r.event_url = FS.normalize_url (some a)) ∧
      (page.eventLink = none →
        page.anchors.find? (fun x => pyIn "event-details" x) = none →
        r.event_url = none) ∧
      (r.event_url = none → r.date = none) ∧
      (∀ u, r.event_url = some u → fe u = none → r.date = none) ∧
      (∀ u ev, r.event_url = some u → fe u = some ev → ev.dateRaw = none →
        r.date = none) ∧
      (∀ u ev raw, r.event_url = some u → fe u = some ev → ev.dateRaw = some raw →
        r.date = fz (pyStrip (pyReplace raw "Date:" ""))) := by
  have h9 : (row.drop 1).length ≤ FS.statLabels.length := by
    simpa [FS.statLabels] using hlen
  simp only [FS.parse_fight, hp, ht, if_pos h9]
  refine ⟨_, rfl, ?_, ?_, ?_, ?_, ?_, ?_, ?_⟩
  · intro h hl
    simp [FS.eventUrlOf, hl]
  · intro hl a hfind
    simp [FS.eventUrlOf, hl, hfind]
  · intro hl hfind
    simp [FS.eventUrlOf, hl, hfind]
  · intro hnone
    replace hnone : FS.eventUrlOf page = none := hnone
    simp [FS.dateOf, hnone]
  · intro u hu hfe
    replace hu : FS.eventUrlOf page = some u := hu
    simp [FS.dateOf, hu, hfe]
  · intro u ev hu hfe hdr
    replace hu : FS.eventUrlOf page = some u := hu
    simp [FS.dateOf, hu, hfe, hdr]
  · intro u ev raw hu hfe hdr
    replace hu : FS.eventUrlOf page = some u := hu
    simp [FS.dateOf, hu, hfe, hdr]

/-- C9: witness for `claim9_event_date` at the concrete page `datePage` with an
event page whose caption text parses. -/
theorem claim9_witness :
    ∃ r, FS.parse_fight (fun _ => some ⟨some "Date: July 11, 2020"⟩)
        (fun s => some ("parsed " ++ s)) "u" (some FS.datePage) = .ok (some r) ∧
      (∀ h, FS.datePage.eventLink = some h → r.event_url = FS.normalize_url h) ∧
      (FS.datePage.eventLink = none →
        ∀ a, FS.datePage.anchors.find? (fun x => pyIn "event-details" x) = some a →
          r.event_url = FS.normalize_url (some a)) ∧
      (FS.datePage.eventLink = none →
        FS.datePage.anchors.find? (fun x => pyIn "event-details" x) = none →
        r.event_url = none) ∧
      (r.event_url = none → r.date = none) ∧
      (∀ u, r.event_url = some u →
        (fun (_ : String) => some (⟨some "Date: July 11, 2020"⟩ : FS.EventSoup)) u = none →
        r.date = none) ∧
      (∀ u ev, r.event_url = some u →
        (fun (_ : String) => some (⟨some "Date: July 11, 2020"⟩ : FS.EventSoup)) u = some ev →
        ev.dateRaw = none → r.date = none) ∧
      (∀ u ev raw, r.event_url = some u →
        (fun (_ : String) => some (⟨some "Date: July 11, 2020"⟩ : FS.EventSoup)) u = some ev →
        ev.dateRaw = some raw →
        r.date = (fun s => some ("parsed " ++ s)) (pyStrip (pyReplace raw "Date:" ""))) :=
  claim9_event_date (fun _ => some ⟨some "Date: July 11, 2020"⟩)
    (fun s => some ("parsed " ++ s)) "u" FS.datePage
    ⟨none, none⟩ ⟨none, none⟩ [⟨[]⟩, ⟨[]⟩] (by decide) (by decide) (by decide)

/-- C6: fighter pages are never rejected.  Whenever the fetch succeeds,
`parse_fighter` produces a record (never `none`), and each absent field — name,
record string, a personal attribute, a career-average statistic — resolves
independently to `none`. -/
theorem claim6_fighter_never_rejected (url : String) (page : FRS.FighterPage) :
    FRS.parse_fighter url (some page) = some (FRS.parse_fighter_page url page) ∧
      (page.name = none → (FRS.parse_fighter_page url page).name = none) ∧
      (page.record = none → (FRS.parse_fighter_page url page).record = none) ∧
      ((∀ li ∈ page.info, ∀ ti, li.title = some ti →
          pyStarts (pyLower (pyStrip ti)) (pyLower "Height") = false) →
        (FRS.parse_fighter_page url page).height = none) ∧
      ((∀ t ∈ page.leftStats, pyStarts (pyStrip t) "SLpM:" = false) →
        (FRS.parse_fighter_page url page).SLpM = none) ∧
      ((∀ t ∈ page.rightStats, pyStarts (pyStrip t) "TD Avg.:" = false) →
        (FRS.parse_fighter_page url page).TD_Avg = none) := by
  refine ⟨rfl, ?_, ?_, ?_, ?_, ?_⟩
  · intro h
    simp [FRS.parse_fighter_page, h]
  · intro h
    simp [FRS.parse_fighter_page, h]
  · intro h
    have hfind : page.info.find?
        (fun li =>
          match li.title with
          | none => false
          | some ti => pyStarts (pyLower (pyStrip ti)) (pyLower "Height")) = none := by
      apply List.find?_eq_none.mpr
      intro li hli
      rcases hti : li.title with _ | ti
      · simp
      · simp [h li hli ti hti]
    simp [FRS.parse_fighter_page, FRS.extractInfo, hfind]
  · intro h
    have hfind : page.leftStats.find? (fun raw => pyStarts (pyStrip raw) "SLpM:") = none := by
      apply List.find?_eq_none.mpr
      intro t ht
      simp [h t ht]
    simp [FRS.parse_fighter_page, FRS.getPre, hfind]
  · intro h
    have hfind : page.rightStats.find? (fun raw => pyStarts (pyStrip raw) "TD Avg.:") = none := by
      apply List.find?_eq_none.mpr
      intro t ht
      simp [h t ht]
    simp [FRS.parse_fighter_page, FRS.getPre, hfind]

/-- C6: witness for `claim6_fighter_never_rejected` at a stub fighter page with
every element absent. -/
theorem claim6_witness :
    FRS.parse_fighter "u" (some ⟨none, none, [], [], []⟩) =
        some (FRS.parse_fighter_page "u" ⟨none, none, [], [], []⟩) ∧
      ((⟨none, none, [], [], []⟩ : FRS.FighterPage).name = none →
        (FRS.parse_fighter_page "u" ⟨none, none, [], [], []⟩).name = none) ∧
      ((⟨none, none, [], [], []⟩ : FRS.FighterPage).record = none →
        (FRS.parse_fighter_page "u" ⟨none, none, [], [], []⟩).record = none) ∧
      ((∀ li ∈ (⟨none, none, [], [], []⟩ : FRS.FighterPage).info, ∀ ti, li.title = some ti →
          pyStarts (pyLower (pyStrip ti)) (pyLower "Height") = false) →
        (FRS.parse_fighter_page "u" ⟨none, none, [], [], []⟩).height = none) ∧
      ((∀ t ∈ (⟨none, none, [], [], []⟩ : FRS.FighterPage).leftStats,
          pyStarts (pyStrip t) "SLpM:" = false) →
        (FRS.parse_fighter_page "u" ⟨none, none, [], [], []⟩).SLpM = none) ∧
      ((∀ t ∈ (⟨none, none, [], [], []⟩ : FRS.FighterPage).rightStats,
          pyStarts (pyStrip t) "TD Avg.:" = false) →
        (FRS.parse_fighter_page "u" ⟨none, none, [], [], []⟩).TD_Avg = none) :=
  claim6_fighter_never_rejected "u" ⟨none, none, [], [], []⟩

/-- Helper: a fresh cache entry is found first. -/
theorem lookupCache_self (u c : String) (rest : List (String × String)) :
    lookupCache ((u, c) :: rest) u = some c := by
  simp [lookupCache]

/-- Helper: when the caching retry loop succeeds, the returned content is in the
final cache under the fetched URL. -/
theorem attemptLoop_cache_of_success (url : String) :
    ∀ (n : Nat) (st : NetState) (c : String) (st' : NetState),
      FS.attemptLoop url n st = (some c, st') → lookupCache st'.cache url = some c := by
  intro n
  induction n with
  | zero =>
    intro st c st' h
    simp [FS.attemptLoop] at h
  | succ n ih =>
    intro st c st' h
    cases htr : st.transport with
    | nil =>
      simp only [FS.attemptLoop, htr] at h
      exact ih _ _ _ h
    | cons r rest =>
      cases r with
      | ok status text =>
        by_cases h200 : status = 200
        · subst h200
          simp only [FS.attemptLoop, htr, if_pos rfl] at h
          obtain ⟨hc, hst⟩ := Prod.mk.injEq .. ▸ h
          cases hc
          cases hst
          simp [lookupCache]
        · simp only [FS.attemptLoop, htr, if_neg h200] at h
          exact ih _ _ _ h
      | err =>
        simp only [FS.attemptLoop, htr] at h
        exact ih _ _ _ h

/-- Helper: the uncached retry loop never decreases the call counter. -/
theorem attemptLoopNC_calls_ge :
    ∀ (n : Nat) (st : NetState), st.calls ≤ (FRS.attemptLoopNC n st).2.calls := by
  intro n
  induction n with
  | zero =>
    intro st
    simp [FRS.attemptLoopNC]
  | succ n ih =>
    intro st
    cases htr : st.transport with
    | nil =>
      simp only [FRS.attemptLoopNC, htr]
      exact le_trans (Nat.le_succ _) (ih ⟨st.cache, [], st.calls + 1⟩)
    | cons r rest =>
      cases r with
      | ok status text =>
        by_cases h200 : status = 200
        · subst h200
          simp [FRS.attemptLoopNC, htr]
        · simp only [FRS.attemptLoopNC, htr, if_neg h200]
          exact le_trans (Nat.le_succ _) (ih ⟨st.cache, rest, st.calls + 1⟩)
      | err =>
        simp only [FRS.attemptLoopNC, htr]
        exact le_trans (Nat.le_succ _) (ih ⟨st.cache, rest, st.calls + 1⟩)

/-- Helper: one attempt of the uncached retry loop always issues a network
call. -/
theorem attemptLoopNC_succ_calls (n : Nat) (st : NetState) :
    st.calls + 1 ≤ (FRS.attemptLoopNC (n + 1) st).2.calls := by
  cases htr : st.transport with
  | nil =>
    simp only [FRS.attemptLoopNC, htr]
    exact attemptLoopNC_calls_ge n ⟨st.cache, [], st.calls + 1⟩
  | cons r rest =>
    cases r with
    | ok status text =>
      by_cases h200 : status = 200
      · subst h200
        simp [FRS.attemptLoopNC, htr]
      · simp only [FRS.attemptLoopNC, htr, if_neg h200]
        exact attemptLoopNC_calls_ge n ⟨st.cache, rest, st.calls + 1⟩
    | err =>
      simp only [FRS.attemptLoopNC, htr]
      exact attemptLoopNC_calls_ge n ⟨st.cache, rest, st.calls + 1⟩

/-- C3 (amended) is stated by `claim3_amended_cache`; this counterexample
refutes the original claim's "both crawl kinds" scope: the fighter scraper's
`get_soup` has no cache, so a second call after a successful first call
consumes the network again (the call counter goes from 1 to 2 and another
transport response is consumed). -/
theorem claim3_counterexample :
    FRS.get_soup ⟨[], [.ok 200 "A", .ok 200 "A"], 0⟩ "u" =
        (some "A", ⟨[], [.ok 200 "A"], 1⟩) ∧
      FRS.get_soup ⟨[], [.ok 200 "A"], 1⟩ "u" = (some "A", ⟨[], [], 2⟩) := by
  decide

/-- C3 (amended): idempotent caching holds for the fight scraper's
`fetch_cached` — after a call that returns content, a second call on the
resulting state returns the same content and leaves the state (including the
network-call counter) unchanged — while the fighter scraper's `get_soup`
issues at least one fresh network call on every invocation. -/
theorem claim3_amended_cache :
    (∀ (st : NetState) (url c : String) (st1 : NetState),
      FS.fetch_cached st url = (some c, st1) →
      FS.fetch_cached st1 url = (some c, st1)) ∧
    (∀ (st : NetState) (url : String), st.calls + 1 ≤ (FRS.get_soup st url).2.calls) := by
  constructor
  · intro st url c st1 h
    have hcache : lookupCache st1.cache url = some c := by
      rcases hl : lookupCache st.cache url with _ | x
      · rw [FS.fetch_cached, hl] at h
        exact attemptLoop_cache_of_success url 5 st c st1 h
      · rw [FS.fetch_cached, hl] at h
        obtain ⟨hc, hst⟩ := Prod.mk.injEq .. ▸ h
        cases hc
        cases hst
        simpa using hl
    rw [FS.fetch_cached, hcache]
  · intro st url
    exact attemptLoopNC_succ_calls 4 st

/-- C3: witness for `claim3_amended_cache` — a second `fetch_cached` call after
a successful network fetch is answered from the cache with the state (and so
the call counter) unchanged. -/
theorem claim3_witness :
    FS.fetch_cached ⟨[("u", "A")], [], 1⟩ "u" = (some "A", ⟨[("u", "A")], [], 1⟩) :=
  claim3_amended_cache.1 ⟨[], [.ok 200 "A"], 0⟩ "u" "A" ⟨[("u", "A")], [], 1⟩ (by decide)

/-- Helper: the caching retry loop makes at most `n` network calls. -/
theorem attemptLoop_calls_le (url : String) :
    ∀ (n : Nat) (st : NetState), (FS.attemptLoop url n st).2.calls ≤ st.calls + n := by
  intro n
  induction n with
  | zero =>
    intro st
    simp [FS.attemptLoop]
  | succ n ih =>
    intro st
    cases htr : st.transport with
    | nil =>
      simp only [FS.attemptLoop, htr]
      have := ih ⟨st.cache, [], st.calls + 1⟩
      simp only at this
      omega
    | cons r rest =>
      cases r with
      | ok status text =>
        by_cases h200 : status = 200
        · subst h200
          simp only [FS.attemptLoop, htr, eq_self_iff_true, if_true]
          omega
        · simp only [FS.attemptLoop, htr, if_neg h200]
          have := ih ⟨st.cache, rest, st.calls + 1⟩
          simp only at this
          omega
      | err =>
        simp only [FS.attemptLoop, htr]
        have := ih ⟨st.cache, rest, st.calls + 1⟩
        simp only at this
        omega

/-- Helper: the uncached retry loop makes at most `n` network calls. -/
theorem attemptLoopNC_calls_le :
    ∀ (n : Nat) (st : NetState), (FRS.attemptLoopNC n st).2.calls ≤ st.calls + n := by
  intro n
  induction n with
  | zero =>
    intro st
    simp [FRS.attemptLoopNC]
  | succ n ih =>
    intro st
    cases htr : st.transport with
    | nil =>
      simp only [FRS.attemptLoopNC, htr]
      have := ih ⟨st.cache, [], st.calls + 1⟩
      simp only at this
      omega
    | cons r rest =>
      cases r with
      | ok status text =>
        by_cases h200 : status = 200
        · subst h200
          simp only [FRS.attemptLoopNC, htr, eq_self_iff_true, if_true]
          omega
        · simp only [FRS.attemptLoopNC, htr, if_neg h200]
          have := ih ⟨st.cache, rest, st.calls + 1⟩
          simp only at this
          omega
      | err =>
        simp only [FRS.attemptLoopNC, htr]
        have := ih ⟨st.cache, rest, st.calls + 1⟩
        simp only at this
        omega

/-- Helper: the caching retry loop over an exhausted transport returns `none`
after burning the remaining attempts. -/
theorem attemptLoop_empty (url : String) :
    ∀ (n : Nat) (cache : List (String × String)) (calls : Nat),
      FS.attemptLoop url n ⟨cache, [], calls⟩ = (none, ⟨cache, [], calls + n⟩) := by
  intro n
  induction n with
  | zero =>
    intro cache calls
    simp [FS.attemptLoop]
  | succ n ih =>
    intro cache calls
    simp only [FS.attemptLoop]
    rw [ih cache (calls + 1)]
    have : calls + 1 + n = calls + (n + 1) := by omega
    rw [this]

/-- Helper: the uncached retry loop over an exhausted transport returns `none`
after burning the remaining attempts. -/
theorem attemptLoopNC_empty :
    ∀ (n : Nat) (cache : List (String × String)) (calls : Nat),
      FRS.attemptLoopNC n ⟨cache, [], calls⟩ = (none, ⟨cache, [], calls + n⟩) := by
  intro n
  induction n with
  | zero =>
    intro cache calls
    simp [FRS.attemptLoopNC]
  | succ n ih =>
    intro cache calls
    simp only [FRS.attemptLoopNC]
    rw [ih cache (calls + 1)]
    have : calls + 1 + n = calls + (n + 1) := by omega
    rw [this]

/-- Helper: a successful caching retry loop stops at the first 200 response;
every earlier response counted one attempt and was not a success, and the final
state records the consumed transport, the attempt count and the cache write. -/
theorem attemptLoop_success (url : String) :
    ∀ (n : Nat) (st : NetState) (c : String) (st' : NetState),
      FS.attemptLoop url n st = (some c, st') →
      ∃ k, k < n ∧
        (∀ j r, j < k → st.transport.get? j = some r → isSuccess r = false) ∧
        st.transport.get? k = some (.ok 200 c) ∧
        st' = ⟨(url, c) :: st.cache, st.transport.drop (k + 1), st.calls + (k + 1)⟩ := by
  intro n
  induction n with
  | zero =>
    intro st c st' h
    simp [FS.attemptLoop] at h
  | succ n ih =>
    intro st c st' h
    obtain ⟨cache, tr, calls⟩ := st
    cases tr with
    | nil =>
      rw [attemptLoop_empty] at h
      simp at h
    | cons r rest =>
      cases r with
      | ok status text =>
        by_cases h200 : status = 200
        · subst h200
          simp only [FS.attemptLoop, if_pos rfl] at h
          obtain ⟨hc, hst⟩ := Prod.mk.injEq .. ▸ h
          cases hc
          cases hst
          exact ⟨0, by omega, by omega, by simp, by simp⟩
        · simp only [FS.attemptLoop, if_neg h200] at h
          obtain ⟨k, hk, hfail, hget, hst⟩ := ih _ _ _ h
          refine ⟨k + 1, by omega, ?_, by simpa using hget, ?_⟩
          · intro j r hj hg
            cases j with
            | zero =>
              simp at hg
              cases hg
              simp [isSuccess, h200]
            | succ j =>
              exact hfail j r (by omega) (by simpa using hg)
          · simp only at hst
            rw [hst]
            have : calls + 1 + (k + 1) = calls + (k + 1 + 1) := by omega
            rw [this]
            simp
      | err =>
        simp only [FS.attemptLoop] at h
        obtain ⟨k, hk, hfail, hget, hst⟩ := ih _ _ _ h
        refine ⟨k + 1, by omega, ?_, by simpa using hget, ?_⟩
        · intro j r hj hg
          cases j with
          | zero =>
            simp at hg
            cases hg
            simp [isSuccess]
          | succ j =>
            exact hfail j r (by omega) (by simpa using hg)
        · simp only at hst
          rw [hst]
          have : calls + 1 + (k + 1) = calls + (k + 1 + 1) := by omega
          rw [this]
          simp

/-- Helper: a successful uncached retry loop stops at the first 200 response
and leaves the cache untouched. -/
theorem attemptLoopNC_success :
    ∀ (n : Nat) (st : NetState) (c : String) (st' : NetState),
      FRS.attemptLoopNC n st = (some c, st') →
      ∃ k, k < n ∧
        (∀ j r, j < k → st.transport.get? j = some r → isSuccess r = false) ∧
        st.transport.get? k = some (.ok 200 c) ∧
        st' = ⟨st.cache, st.transport.drop (k + 1), st.calls + (k + 1)⟩ := by
  intro n
  induction n with
  | zero =>
    intro st c st' h
    simp [FRS.attemptLoopNC] at h
  | succ n ih =>
    intro st c st' h
    obtain ⟨cache, tr, calls⟩ := st
    cases tr with
    | nil =>
      rw [attemptLoopNC_empty] at h
      simp at h
    | cons r rest =>
      cases r with
      | ok status text =>
        by_cases h200 : status = 200
        · subst h200
          simp only [FRS.attemptLoopNC, if_pos rfl] at h
          obtain ⟨hc, hst⟩ := Prod.mk.injEq .. ▸ h
          cases hc
          cases hst
          exact ⟨0, by omega, by omega, by simp, by simp⟩
        · simp only [FRS.attemptLoopNC, if_neg h200] at h
          obtain ⟨k, hk, hfail, hget, hst⟩ := ih _ _ _ h
          refine ⟨k + 1, by omega, ?_, by simpa using hget, ?_⟩
          · intro j r hj hg
            cases j with
            | zero =>
              simp at hg
              cases hg
              simp [isSuccess, h200]
            | succ j =>
              exact hfail j r (by omega) (by simpa using hg)
          · simp only at hst
            rw [hst]
            have : calls + 1 + (k + 1) = calls + (k + 1 + 1) := by omega
            rw [this]
            simp
      | err =>
        simp only [FRS.attemptLoopNC] at h
        obtain ⟨k, hk, hfail, hget, hst⟩ := ih _ _ _ h
        refine ⟨k + 1, by omega, ?_, by simpa using hget, ?_⟩
        · intro j r hj hg
          cases j with
          | zero =>
            simp at hg
            cases hg
            simp [isSuccess]
          | succ j =>
            exact hfail j r (by omega) (by simpa using hg)
        · simp only at hst
          rw [hst]
          have : calls + 1 + (k + 1) = calls + (k + 1 + 1) := by omega
          rw [this]
          simp

/-- Helper: when the first `n` responses all fail, the caching retry loop burns
exactly `n` attempts, returns `none` and writes nothing to the cache. -/
theorem attemptLoop_fail (url : String) :
    ∀ (n : Nat) (st : NetState),
      (∀ j r, j < n → st.transport.get? j = some r → isSuccess r = false) →
      FS.attemptLoop url n st = (none, ⟨st.cache, st.transport.drop n, st.calls + n⟩) := by
  intro n
  induction n with
  | zero =>
    intro st h
    simp [FS.attemptLoop]
  | succ n ih =>
    intro st h
    obtain ⟨cache, tr, calls⟩ := st
    cases tr with
    | nil =>
      rw [attemptLoop_empty]
      simp
    | cons r rest =>
      have h0 : isSuccess r = false := h 0 r (by omega) (by simp)
      cases r with
      | ok status text =>
        have h200 : ¬ status = 200 := by
          simpa [isSuccess] using h0
        simp only [FS.attemptLoop, if_neg h200]
        rw [ih ⟨cache, rest, calls + 1⟩ (fun j r hj hg => h (j + 1) r (by omega) (by simpa using hg))]
        have : calls + 1 + n = calls + (n + 1) := by omega
        rw [this]
        simp
      | err =>
        simp only [FS.attemptLoop]
        rw [ih ⟨cache, rest, calls + 1⟩ (fun j r hj hg => h (j + 1) r (by omega) (by simpa using hg))]
        have : calls + 1 + n = calls + (n + 1) := by omega
        rw [this]
        simp

/-- Helper: when the first `n` responses all fail, the uncached retry loop
burns exactly `n` attempts and returns `none`. -/
theorem attemptLoopNC_fail :
    ∀ (n : Nat) (st : NetState),
      (∀ j r, j < n → st.transport.get? j = some r → isSuccess r = false) →
      FRS.attemptLoopNC n st = (none, ⟨st.cache, st.transport.drop n, st.calls + n⟩) := by
  intro n
  induction n with
  | zero =>
    intro st h
    simp [FRS.attemptLoopNC]
  | succ n ih =>
    intro st h
    obtain ⟨cache, tr, calls⟩ := st
    cases tr with
    | nil =>
      rw [attemptLoopNC_empty]
      simp
    | cons r rest =>
      have h0 : isSuccess r = false := h 0 r (by omega) (by simp)
      cases r with
      | ok status text =>
        have h200 : ¬ status = 200 := by
          simpa [isSuccess] using h0
        simp only [FRS.attemptLoopNC, if_neg h200]
        rw [ih ⟨cache, rest, calls + 1⟩ (fun j r hj hg => h (j + 1) r (by omega) (by simpa using hg))]
        have : calls + 1 + n = calls + (n + 1) := by omega
        rw [this]
        simp
      | err =>
        simp only [FRS.attemptLoopNC]
        rw [ih ⟨cache, rest, calls + 1⟩ (fun j r hj hg => h (j + 1) r (by omega) (by simpa using hg))]
        have : calls + 1 + n = calls + (n + 1) := by omega
        rw [this]
        simp

/-- Helper: the records collected by the orchestrator loop are the accumulator
followed by the non-`none` parse results in order; snapshots do not affect
them. -/
theorem processAux_records {α : Type} (parse : String → Option α) (N : Nat) :
    ∀ (urls : List String) (i : Nat) (acc : List α),
      (processAux parse N urls i acc).1 = acc ++ urls.filterMap parse := by
  intro urls
  induction urls with
  | nil =>
    intro i acc
    simp [processAux]
  | cons u us ih =>
    intro i acc
    simp only [processAux]
    cases hp : parse u with
    | none =>
      by_cases hN : (i + 1) % N = 0
      · simp [hN, ih, hp, List.filterMap_cons]
      · simp [hN, ih, hp, List.filterMap_cons]
    | some r =>
      by_cases hN : (i + 1) % N = 0
      · simp [hN, ih, hp, List.filterMap_cons]
      · simp [hN, ih, hp, List.filterMap_cons]

/-- C4: fetch retry and failure policy.  Both fetchers make at most five
attempts; a fetch that returns content stopped at the first 200 response, with
every earlier response a non-success that consumed one attempt of the budget
(and, for the fight scraper, the content is written to the cache); when the
first five responses all fail, the result is `none`, exactly five attempts are
consumed and nothing is cached; and a `none` result is non-fatal — the
orchestrator loop's collected records around a failing URL are exactly those of
the remaining URLs. -/
theorem claim4_retry_policy :
    (∀ (st : NetState) (url : String), (FS.fetch_cached st url).2.calls ≤ st.calls + 5) ∧
    (∀ (st : NetState) (url : String), (FRS.get_soup st url).2.calls ≤ st.calls + 5) ∧
    (∀ (st : NetState) (url c : String) (st' : NetState),
      lookupCache st.cache url = none →
      FS.fetch_cached st url = (some c, st') →
      ∃ k, k < 5 ∧
        (∀ j r, j < k → st.transport.get? j = some r → isSuccess r = false) ∧
        st.transport.get? k = some (.ok 200 c) ∧
        st' = ⟨(url, c) :: st.cache, st.transport.drop (k + 1), st.calls + (k + 1)⟩ ∧
        lookupCache st'.cache url = some c) ∧
    (∀ (st : NetState) (url : String),
      lookupCache st.cache url = none →
      (∀ j r, j < 5 → st.transport.get? j = some r → isSuccess r = false) →
      FS.fetch_cached st url = (none, ⟨st.cache, st.transport.drop 5, st.calls + 5⟩)) ∧
    (∀ (st : NetState) (url c : String) (st' : NetState),
      FRS.get_soup st url = (some c, st') →
      ∃ k, k < 5 ∧
        (∀ j r, j < k → st.transport.get? j = some r → isSuccess r = false) ∧
        st.transport.get? k = some (.ok 200 c) ∧
        st' = ⟨st.cache, st.transport.drop (k + 1), st.calls + (k + 1)⟩) ∧
    (∀ (st : NetState) (url : String),
      (∀ j r, j < 5 → st.transport.get? j = some r → isSuccess r = false) →
      FRS.get_soup st url = (none, ⟨st.cache, st.transport.drop 5, st.calls + 5⟩)) ∧
    (∀ {α : Type} (parse : String → Option α) (N : Nat) (l1 l2 : List String) (u : String),
      parse u = none →
      (processAux parse N (l1 ++ u :: l2) 0 []).1 = (processAux parse N (l1 ++ l2) 0 []).1) := by
  refine ⟨?_, ?_, ?_, ?_, ?_, ?_, ?_⟩
  · intro st url
    rcases hl : lookupCache st.cache url with _ | x
    · rw [FS.fetch_cached, hl]
      exact attemptLoop_calls_le url 5 st
    · rw [FS.fetch_cached, hl]
      exact Nat.le_add_right st.calls 5
  · intro st url
    exact attemptLoopNC_calls_le 5 st
  · intro st url c st' hl h
    rw [FS.fetch_cached, hl] at h
    obtain ⟨k, hk, hfail, hget, hst⟩ := attemptLoop_success url 5 st c st' h
    refine ⟨k, hk, hfail, hget, hst, ?_⟩
    rw [hst]
    simp [lookupCache]
  · intro st url hl hfail
    rw [FS.fetch_cached, hl]
    exact attemptLoop_fail url 5 st hfail
  · intro st url c st' h
    exact attemptLoopNC_success 5 st c st' h
  · intro st url hfail
    exact attemptLoopNC_fail 5 st hfail
  · intro α parse N l1 l2 u hu
    rw [processAux_records, processAux_records]
    simp [List.filterMap_append, List.filterMap_cons, hu]

/-- C4: witness for `claim4_retry_policy` — a transport whose first two
responses fail and whose third is a 200 yields the content after three
attempts, cached. -/
theorem claim4_witness :
    ∃ k, k < 5 ∧
      (∀ j r, j < k →
        (⟨[], [Resp.err, Resp.ok 500 "x", Resp.ok 200 "B"], 0⟩ : NetState).transport.get? j =
          some r → isSuccess r = false) ∧
      (⟨[], [Resp.err, Resp.ok 500 "x", Resp.ok 200 "B"], 0⟩ : NetState).transport.get? k =
        some (.ok 200 "B") ∧
      (⟨[("u", "B")], [], 3⟩ : NetState) =
        ⟨("u", "B") :: ([] : List (String × String)),
          ([Resp.err, Resp.ok 500 "x", Resp.ok 200 "B"] : List Resp).drop (k + 1),
          0 + (k + 1)⟩ ∧
      lookupCache (⟨[("u", "B")], [], 3⟩ : NetState).cache "u" = some "B" :=
  claim4_retry_policy.2.2.1 ⟨[], [Resp.err, Resp.ok 500 "x", Resp.ok 200 "B"], 0⟩ "u" "B"
    ⟨[("u", "B")], [], 3⟩ (by decide) (by decide)

/-- Helper: permuting a list does not change its `toFinset`. -/
theorem perm_toFinset {l l' : List String} (h : l.Perm l') : l.toFinset = l'.toFinset := by
  apply Finset.ext
  intro x
  simp [List.mem_toFinset, h.mem_iff]

/-- Helper: membership in the fighter-link accumulator fold. -/
theorem fighter_fold_mem (pages : List (Option (List String))) :
    ∀ (acc : Finset String) (x : String),
      (x ∈ pages.foldl
          (fun acc p =>
            match p with
            | none => acc
            | some hrefs => acc ∪ (hrefs.filterMap FRS.keepFighter).toFinset)
          acc) ↔
        (x ∈ acc ∨ ∃ hrefs, some hrefs ∈ pages ∧ ∃ h ∈ hrefs, FRS.keepFighter h = some x) := by
  induction pages with
  | nil =>
    intro acc x
    simp
  | cons p ps ih =>
    intro acc x
    cases p with
    | none =>
      simp only [List.foldl_cons, ih]
      constructor
      · rintro (hx | ⟨hrefs, hmem, hh⟩)
        · exact Or.inl hx
        · exact Or.inr ⟨hrefs, List.mem_cons_of_mem _ hmem, hh⟩
      · rintro (hx | ⟨hrefs, hmem, hh⟩)
        · exact Or.inl hx
        · rcases List.mem_cons.mp hmem with hEq | hmem'
          · exact absurd hEq (by simp)
          · exact Or.inr ⟨hrefs, hmem', hh⟩
    | some hrefs0 =>
      simp only [List.foldl_cons, ih, Finset.mem_union, List.mem_toFinset, List.mem_filterMap]
      constructor
      · rintro ((hx | ⟨h, hh, hk⟩) | ⟨hrefs, hmem, hh⟩)
        · exact Or.inl hx
        · exact Or.inr ⟨hrefs0, List.mem_cons_self _ _, h, hh, hk⟩
        · exact Or.inr ⟨hrefs, List.mem_cons_of_mem _ hmem, hh⟩
      · rintro (hx | ⟨hrefs, hmem, hh⟩)
        · exact Or.inl (Or.inl hx)
        · rcases List.mem_cons.mp hmem with hEq | hmem'
          · cases Option.some.inj hEq
            exact Or.inl (Or.inr hh)
          · exact Or.inr ⟨hrefs, hmem', hh⟩

/-- C5: deduplication and deterministic ordering of link discovery.  Each tier
returns a duplicate-free, sorted list; the event and fighter tiers' outputs are
exactly the sorted sets of normalized matching hrefs (so they are independent
of discovery order and multiplicity), the event tier is invariant under
permutation and under repetition of an anchor, and the fight tier is invariant
under permutation of both its anchor lists. -/
theorem claim5_discovery_dedup :
    (∀ s, (FS.get_all_event_links s).Nodup) ∧
    (∀ s, List.Sorted (· ≤ ·) (FS.get_all_event_links s)) ∧
    (∀ hrefs x, x ∈ FS.get_all_event_links (some hrefs) ↔
      ∃ h ∈ hrefs, FS.keepEvent h = some x) ∧
    (∀ l l', l.Perm l' →
      FS.get_all_event_links (some l) = FS.get_all_event_links (some l')) ∧
    (∀ h t, FS.get_all_event_links (some (h :: h :: t)) =
      FS.get_all_event_links (some (h :: t))) ∧
    (∀ pg, (FS.get_event_fights pg).Nodup) ∧
    (∀ pg, List.Sorted (· ≤ ·) (FS.get_event_fights pg)) ∧
    (∀ ra ra' aa aa', ra.Perm ra' → aa.Perm aa' →
      FS.get_event_fights (some ⟨ra, aa⟩) = FS.get_event_fights (some ⟨ra', aa'⟩)) ∧
    (∀ pages, (FRS.get_all_fighter_links pages).Nodup) ∧
    (∀ pages, List.Sorted (· ≤ ·) (FRS.get_all_fighter_links pages)) ∧
    (∀ pages x, x ∈ FRS.get_all_fighter_links pages ↔
      ∃ hrefs, some hrefs ∈ pages ∧ ∃ h ∈ hrefs, FRS.keepFighter h = some x) := by
  refine ⟨?_, ?_, ?_, ?_, ?_, ?_, ?_, ?_, ?_, ?_, ?_⟩
  · intro s
    cases s with
    | none => simp [FS.get_all_event_links]
    | some hrefs => exact Finset.sort_nodup _ _
  · intro s
    cases s with
    | none => simp [FS.get_all_event_links]
    | some hrefs => exact Finset.sort_sorted _ _
  · intro hrefs x
    simp [FS.get_all_event_links, Finset.mem_sort, List.mem_toFinset, List.mem_filterMap]
  · intro l l' hperm
    simp only [FS.get_all_event_links]
    rw [perm_toFinset (hperm.filterMap FS.keepEvent)]
  · intro h t
    simp only [FS.get_all_event_links]
    cases hk : FS.keepEvent h with
    | none => simp [List.filterMap_cons, hk]
    | some y => simp [List.filterMap_cons, hk, List.toFinset_cons, Finset.insert_idem]
  · intro pg
    cases pg with
    | none => simp [FS.get_event_fights]
    | some p => exact Finset.sort_nodup _ _
  · intro pg
    cases pg with
    | none => simp [FS.get_event_fights]
    | some p => exact Finset.sort_sorted _ _
  · intro ra ra' aa aa' hra haa
    simp only [FS.get_event_fights]
    rw [perm_toFinset (hra.filterMap FS.keepFight), perm_toFinset (haa.filterMap FS.keepFight)]
  · intro pages
    exact Finset.sort_nodup _ _
  · intro pages
    exact Finset.sort_sorted _ _
  · intro pages x
    simp only [FRS.get_all_fighter_links, Finset.mem_sort]
    rw [fighter_fold_mem pages ∅ x]
    simp

/-- C5: witness for `claim5_discovery_dedup` — discovery order does not matter
for the event tier. -/
theorem claim5_witness :
    FS.get_all_event_links (some ["/event-details/1", "x"]) =
      FS.get_all_event_links (some ["x", "/event-details/1"]) :=
  claim5_discovery_dedup.2.2.2.1 ["/event-details/1", "x"] ["x", "/event-details/1"]
    (by decide)

/-- Helper: a snapshot labelled `k` is written by the orchestrator loop started
at index `i` exactly when `i < k ≤ i +` number of units and `k % N = 0`, and it
then contains the accumulator plus the results of the first `k - i` units. -/
theorem processAux_snap_mem {α : Type} (parse : String → Option α) (N : Nat) :
    ∀ (urls : List String) (i : Nat) (acc : List α) (k : Nat) (rows : List α),
      (SinkWrite.snap k rows ∈ (processAux parse N urls i acc).2 ↔
        (i < k ∧ k ≤ i + urls.length ∧ k % N = 0 ∧
          rows = acc ++ (urls.take (k - i)).filterMap parse)) := by
  intro urls
  induction urls with
  | nil =>
    intro i acc k rows
    constructor
    · intro h
      simp [processAux] at h
    · rintro ⟨h1, h2, _, _⟩
      simp at h2
      omega
  | cons u us ih =>
    intro i acc k rows
    simp only [processAux]
    have haccu : (match parse u with
        | some r => acc ++ [r]
        | none => acc) = acc ++ List.filterMap parse [u] := by
      cases hpu : parse u <;> simp [List.filterMap_cons, hpu]
    rw [haccu]
    have hcontent : ∀ n,
        (acc ++ List.filterMap parse [u]) ++ (us.take n).filterMap parse =
          acc ++ ((u :: us).take (n + 1)).filterMap parse := by
      intro n
      rw [List.take_succ_cons]
      cases hpu : parse u <;> simp [List.filterMap_cons, hpu]
    by_cases hc : (i + 1) % N = 0
    · rw [if_pos hc]
      simp only [List.mem_cons]
      constructor
      · intro h
        rcases h with hEq | hMem
        · obtain ⟨hk, hr⟩ := SinkWrite.snap.injEq .. ▸ hEq
          subst hk
          subst hr
          refine ⟨by omega, by simp, hc, ?_⟩
          simp
        · obtain ⟨h1, h2, h3, h4⟩ := (ih (i + 1) _ k rows).mp hMem
          refine ⟨by omega, by simp; omega, h3, ?_⟩
          rw [h4]
          have := hcontent (k - (i + 1))
          rw [this]
          have hidx : k - (i + 1) + 1 = k - i := by omega
          rw [hidx]
      · rintro ⟨h1, h2, h3, h4⟩
        by_cases hki : k = i + 1
        · subst hki
          left
          simp only [Nat.add_sub_cancel_left] at h4
          have h4' : rows = acc ++ List.filterMap parse [u] := by
            rw [h4]
            simp
          rw [h4']
        · right
          apply (ih (i + 1) _ k rows).mpr
          refine ⟨by omega, by simp at h2; omega, h3, ?_⟩
          rw [h4]
          have := hcontent (k - (i + 1))
          rw [this]
          have hidx : k - (i + 1) + 1 = k - i := by omega
          rw [hidx]
    · rw [if_neg hc]
      rw [ih (i + 1) _ k rows]
      constructor
      · rintro ⟨h1, h2, h3, h4⟩
        refine ⟨by omega, by simp; omega, h3, ?_⟩
        rw [h4]
        have := hcontent (k - (i + 1))
        rw [this]
        have hidx : k - (i + 1) + 1 = k - i := by omega
        rw [hidx]
      · rintro ⟨h1, h2, h3, h4⟩
        have hki : k ≠ i + 1 := by
          intro hk
          rw [hk] at h3
          exact hc h3
        refine ⟨by omega, by simp at h2; omega, h3, ?_⟩
        rw [h4]
        have := hcontent (k - (i + 1))
        rw [this]
        have hidx : k - (i + 1) + 1 = k - i := by omega
        rw [hidx]

/-- Helper: the orchestrator loop always ends its writes with the final save of
every collected record. -/
theorem processAux_final {α : Type} (parse : String → Option α) (N : Nat) :
    ∀ (urls : List String) (i : Nat) (acc : List α),
      ∃ w, (processAux parse N urls i acc).2 =
        w ++ [SinkWrite.last (acc ++ urls.filterMap parse)] := by
  intro urls
  induction urls with
  | nil =>
    intro i acc
    exact ⟨[], by simp [processAux]⟩
  | cons u us ih =>
    intro i acc
    simp only [processAux]
    have haccu : (match parse u with
        | some r => acc ++ [r]
        | none => acc) = acc ++ List.filterMap parse [u] := by
      cases hpu : parse u <;> simp [List.filterMap_cons, hpu]
    rw [haccu]
    obtain ⟨w, hw⟩ := ih (i + 1) (acc ++ List.filterMap parse [u])
    have hcont : (acc ++ List.filterMap parse [u]) ++ us.filterMap parse =
        acc ++ (u :: us).filterMap parse := by
      cases hpu : parse u <;> simp [List.filterMap_cons, hpu]
    by_cases hc : (i + 1) % N = 0
    · refine ⟨SinkWrite.snap (i + 1) (acc ++ List.filterMap parse [u]) :: w, ?_⟩
      rw [if_pos hc]
      simp only [List.cons_append]
      rw [← hcont, hw]
    · refine ⟨w, ?_⟩
      rw [if_neg hc]
      rw [← hcont, hw]

/-- Helper: the fighter-link fold ignores failed letter pages. -/
theorem fighter_fold_skip_none :
    ∀ (n : Nat) (acc : Finset String),
      (List.replicate n (none : Option (List String))).foldl
        (fun acc p =>
          match p with
          | none => acc
          | some hrefs => acc ∪ (hrefs.filterMap FRS.keepFighter).toFinset)
        acc = acc := by
  intro n
  induction n with
  | zero =>
    intro acc
    simp
  | succ n ih =>
    intro acc
    rw [List.replicate_succ]
    simp only [List.foldl_cons]
    exact ih acc

/-- C7: counterexample.  The claim says a tier-1 total failure surfaces a
crawl-level failure rather than proceeding; in the code both orchestrators
proceed on a dead index tier: they derive an empty link set, process zero
units and still write the final (empty) snapshot, completing normally. -/
theorem claim7_counterexample :
    FS.scrape_all none (fun _ => none) (fun _ => none) (fun _ => none) (fun _ => none) 1000 =
        ([], [SinkWrite.last []]) ∧
      FRS.scrape_fighters (List.replicate 26 none) (fun _ => none) 1000 =
        ([], [SinkWrite.last []]) := by
  constructor
  · simp [FS.scrape_all, FS.get_all_event_links, FS.eventFightLinks, Finset.sort_empty,
      processAux]
  · simp [FRS.scrape_fighters, FRS.get_all_fighter_links, fighter_fold_skip_none,
      Finset.sort_empty, FRS.processFighters, processAux]

/-- C7 (amended): tier-1 total failure is not fatal — the crawl logs the error,
treats the link set as empty and still completes, writing an empty final
snapshot; and, as the claim's second half states, every per-URL failure at a
lower tier yields an empty result for that node while traversal continues with
the remaining siblings. -/
theorem claim7_amended_nonfatal :
    (∀ (ep : String → Option FS.EventPage) (fe : String → Option FS.EventSoup)
        (fz : String → Option String) (fs : String → Option FS.FightPage) (N : Nat),
      FS.scrape_all none ep fe fz fs N = ([], [SinkWrite.last []])) ∧
    (∀ (fsoups : String → Option FRS.FighterPage) (N : Nat),
      FRS.scrape_fighters (List.replicate 26 none) fsoups N = ([], [SinkWrite.last []])) ∧
    (FS.get_event_fights none = []) ∧
    (∀ (ep : String → Option FS.EventPage) (e : String) (l1 l2 : List String),
      ep e = none →
      FS.eventFightLinks (l1 ++ e :: l2) ep = FS.eventFightLinks (l1 ++ l2) ep) ∧
    (∀ (pages1 pages2 : List (Option (List String))),
      FRS.get_all_fighter_links (pages1 ++ none :: pages2) =
        FRS.get_all_fighter_links (pages1 ++ pages2)) ∧
    (∀ {α : Type} (parse : String → Option α) (N : Nat) (l1 l2 : List String) (u : String),
      parse u = none →
      (processAux parse N (l1 ++ u :: l2) 0 []).1 = (processAux parse N (l1 ++ l2) 0 []).1) := by
  refine ⟨?_, ?_, ?_, ?_, ?_, ?_⟩
  · intro ep fe fz fs N
    simp [FS.scrape_all, FS.get_all_event_links, FS.eventFightLinks, Finset.sort_empty,
      processAux]
  · intro fsoups N
    simp [FRS.scrape_fighters, FRS.get_all_fighter_links, fighter_fold_skip_none,
      Finset.sort_empty, FRS.processFighters, processAux]
  · rfl
  · intro ep e l1 l2 hep
    simp [FS.eventFightLinks, List.foldl_append, List.foldl_cons, hep, FS.get_event_fights]
  · intro pages1 pages2
    simp [FRS.get_all_fighter_links, List.foldl_append, List.foldl_cons]
  · intro α parse N l1 l2 u hu
    rw [processAux_records, processAux_records]
    simp [List.filterMap_append, List.filterMap_cons, hu]

/-- C7: witness for `claim7_amended_nonfatal` — a broken event page in the
middle of the event list contributes nothing while its siblings are still
discovered. -/
theorem claim7_witness :
    FS.eventFightLinks (["e1"] ++ "bad" :: ["e2"]) (fun _ => none) =
      FS.eventFightLinks (["e1"] ++ ["e2"]) (fun _ => none) :=
  claim7_amended_nonfatal.2.2.2.1 (fun _ => none) "bad" ["e1"] ["e2"] rfl

/-- C8: snapshot schedule.  For the fight orchestrator (enumeration from 0) a
snapshot labelled `k` exists exactly when the count `k` of completed units is a
positive multiple of `N` within the run, and it contains all results
accumulated so far; the final save of all records is always written.  For the
fighter orchestrator (enumeration from 1 with the same `(i + 1) %% N` test) the
snapshot labelled `k` exists for the same multiples `k` but contains only the
results of the first `k - 1` completed units — the off-by-one the last two
conjuncts exhibit concretely at `save_every = 2` with two fighters: a partial
CSV is written after the first completed unit and none after the second,
whereas the fight loop snapshots after the second unit with both records. -/
theorem claim8_snapshot_schedule :
    (∀ (parse : String → Option FS.FightRecord) (N : Nat) (urls : List String)
        (k : Nat) (rows : List FS.FightRecord),
      SinkWrite.snap k rows ∈ (processAux parse N urls 0 []).2 ↔
        (0 < k ∧ k ≤ urls.length ∧ k % N = 0 ∧ rows = (urls.take k).filterMap parse)) ∧
    (∀ (parse : String → Option FRS.FighterRecord) (N : Nat) (urls : List String)
        (k : Nat) (rows : List FRS.FighterRecord),
      SinkWrite.snap k rows ∈ (FRS.processFighters urls parse N).2 ↔
        (1 < k ∧ k ≤ 1 + urls.length ∧ k % N = 0 ∧
          rows = (urls.take (k - 1)).filterMap parse)) ∧
    (∀ {α : Type} (parse : String → Option α) (N : Nat) (urls : List String) (i : Nat)
        (acc : List α),
      ∃ w, (processAux parse N urls i acc).2 =
        w ++ [SinkWrite.last (acc ++ urls.filterMap parse)]) ∧
    (FRS.processFighters ["a", "b"] (fun u => some (FRS.mkFR u)) 2 =
      ([FRS.mkFR "a", FRS.mkFR "b"],
        [SinkWrite.snap 2 [FRS.mkFR "a"],
          SinkWrite.last [FRS.mkFR "a", FRS.mkFR "b"]])) ∧
    (processAux (fun u => some (FRS.mkFR u)) 2 ["a", "b"] 0 [] =
      ([FRS.mkFR "a", FRS.mkFR "b"],
        [SinkWrite.snap 2 [FRS.mkFR "a", FRS.mkFR "b"],
          SinkWrite.last [FRS.mkFR "a", FRS.mkFR "b"]])) := by
  refine ⟨?_, ?_, ?_, ?_, ?_⟩
  · intro parse N urls k rows
    have := processAux_snap_mem parse N urls 0 [] k rows
    simpa using this
  · intro parse N urls k rows
    have := processAux_snap_mem parse N urls 1 [] k rows
    simpa [FRS.processFighters] using this
  · intro α parse N urls i acc
    exact processAux_final parse N urls i acc
  · decide
  · decide

/-- Helper: string-level append distributes over `toList`. -/
theorem toList_append (a b : String) : (a ++ b).toList = a.toList ++ b.toList :=
  String.data_append a b

/-- Helper: unfolding one matching character of `swChars`. -/
theorem swChars_cons_iff {p : Char} {ps l : List Char} :
    swChars (p :: ps) l = true ↔ ∃ u, l = p :: u ∧ swChars ps u = true := by
  cases l with
  | nil =>
    simp [swChars]
  | cons c cs =>
    simp only [swChars, Bool.and_eq_true, beq_iff_eq]
    constructor
    · rintro ⟨hpc, hrest⟩
      exact ⟨cs, by rw [hpc], hrest⟩
    · rintro ⟨u, hEq, hu⟩
      obtain ⟨hc, hcs⟩ := List.cons.injEq .. ▸ hEq
      exact ⟨hc.symm, by rw [hcs]; exact hu⟩

/-- Helper: a shared prefix cancels on both sides of `swChars`. -/
theorem swChars_append_both : ∀ (l p m : List Char), swChars (l ++ p) (l ++ m) = swChars p m := by
  intro l
  induction l with
  | nil => intro p m; rfl
  | cons a l ih => intro p m; simp [swChars, ih]

/-- Helper: a match is preserved when the scanned list is extended. -/
theorem swChars_append_of_swChars :
    ∀ (p l t : List Char), swChars p l = true → swChars p (l ++ t) = true := by
  intro p
  induction p with
  | nil =>
    intro l t _
    rfl
  | cons a ps ih =>
    intro l t h
    obtain ⟨u, hEq, hu⟩ := swChars_cons_iff.mp h
    subst hEq
    exact swChars_cons_iff.mpr ⟨u ++ t, by simp, ih u t hu⟩

/-- Helper: shortening the pattern preserves a match. -/
theorem swChars_pattern_shorten :
    ∀ (p1 p2 l : List Char), swChars (p1 ++ p2) l = true → swChars p1 l = true := by
  intro p1
  induction p1 with
  | nil =>
    intro p2 l _
    rfl
  | cons a ps ih =>
    intro p2 l h
    obtain ⟨u, hEq, hu⟩ := swChars_cons_iff.mp (by simpa using h)
    subst hEq
    exact swChars_cons_iff.mpr ⟨u, rfl, ih p2 u hu⟩

/-- Helper: the head surviving a `dropWhile` fails the predicate. -/
theorem dropWhile_head_false :
    ∀ {l : List Char} {c : Char} {cs : List Char},
      l.dropWhile pySpace = c :: cs → pySpace c = false := by
  intro l
  induction l with
  | nil =>
    intro c cs h
    simp [List.dropWhile] at h
  | cons a l ih =>
    intro c cs h
    by_cases ha : pySpace a
    · rw [List.dropWhile_cons_of_pos ha] at h
      exact ih h
    · rw [List.dropWhile_cons_of_neg ha] at h
      obtain ⟨hc, _⟩ := List.cons.injEq .. ▸ h
      rw [← hc]
      exact Bool.of_not_eq_true ha

/-- Helper: `dropWhile` keeps a list whose head fails the predicate. -/
theorem dropWhile_eq_self_of_head_false :
    ∀ {l : List Char}, (∀ c cs, l = c :: cs → pySpace c = false) →
      l.dropWhile pySpace = l := by
  intro l h
  cases l with
  | nil => rfl
  | cons a l' => exact List.dropWhile_cons_of_neg (by simp [h a l' rfl])

/-- Helper: `dropWhile` produces a suffix. -/
theorem dropWhile_suffix_exists :
    ∀ (m : List Char), ∃ t, m = t ++ m.dropWhile pySpace := by
  intro m
  induction m with
  | nil => exact ⟨[], rfl⟩
  | cons a l ih =>
    by_cases ha : pySpace a
    · obtain ⟨t, ht⟩ := ih
      exact ⟨a :: t, by rw [List.dropWhile_cons_of_pos ha]; simpa using ht⟩
    · exact ⟨[], by rw [List.dropWhile_cons_of_neg ha]; rfl⟩

/-- Helper: the reversal of a stripped list is itself a `dropWhile` result. -/
theorem stripChars_reverse (l : List Char) :
    (stripChars l).reverse = (l.dropWhile pySpace).reverse.dropWhile pySpace := by
  simp [stripChars]

/-- Helper: a nonempty stripped list starts with a non-whitespace character. -/
theorem stripChars_head_false {l : List Char} {c : Char} {cs : List Char}
    (h : stripChars l = c :: cs) : pySpace c = false := by
  obtain ⟨t, ht⟩ := dropWhile_suffix_exists ((l.dropWhile pySpace).reverse)
  have hX : l.dropWhile pySpace = stripChars l ++ t.reverse := by
    have h2 := congrArg List.reverse ht
    rw [List.reverse_reverse, List.reverse_append] at h2
    simpa [stripChars] using h2
  rw [h] at hX
  have hX' : l.dropWhile pySpace = c :: (cs ++ t.reverse) := by simpa using hX
  exact dropWhile_head_false hX'

/-- Helper: a nonempty stripped list ends with a non-whitespace character. -/
theorem stripChars_rev_head_false {l : List Char} {c : Char} {cs : List Char}
    (h : (stripChars l).reverse = c :: cs) : pySpace c = false := by
  rw [stripChars_reverse] at h
  exact dropWhile_head_false h

/-- Helper: stripping fixes a list with non-whitespace endpoints. -/
theorem stripChars_fix {l : List Char}
    (hhead : ∀ c cs, l = c :: cs → pySpace c = false)
    (hlast : ∀ c cs, l.reverse = c :: cs → pySpace c = false) :
    stripChars l = l := by
  have h1 : l.dropWhile pySpace = l := dropWhile_eq_self_of_head_false hhead
  have h2 : l.reverse.dropWhile pySpace = l.reverse := by
    apply dropWhile_eq_self_of_head_false
    intro c cs hc
    exact hlast c cs hc
  simp [stripChars, h1, h2]

/-- Helper: stripping fixes a string with non-whitespace endpoints. -/
theorem pyStrip_fix (s : String)
    (hhead : ∀ c cs, s.toList = c :: cs → pySpace c = false)
    (hlast : ∀ c cs, s.toList.reverse = c :: cs → pySpace c = false) :
    pyStrip s = s := by
  rw [pyStrip, stripChars_fix hhead hlast, String.asString_toList]

/-- Helper: the character list of a stripped string is the stripped character
list. -/
theorem pyStrip_toList (s : String) : (pyStrip s).toList = stripChars s.toList := by
  rw [pyStrip, List.toList_asString]

/-- Helper: stripping is idempotent. -/
theorem pyStrip_idem (s : String) : pyStrip (pyStrip s) = pyStrip s := by
  apply pyStrip_fix
  · intro c cs h
    rw [pyStrip_toList] at h
    exact stripChars_head_false h
  · intro c cs h
    rw [pyStrip_toList] at h
    exact stripChars_rev_head_false h

/-- Helper: a string whose character list is a cons is not empty. -/
theorem ne_empty_of_toList_cons {s : String} {c : Char} {cs : List Char}
    (h : s.toList = c :: cs) : s ≠ "" := by
  intro h0
  rw [h0, String.toList_empty] at h
  cases h

/-- Helper: the `"//"`-branch output `"http:" ++ t` of both `normalize_url`
variants starts with `"http"` and is a fixed point of both. -/
theorem norm_out_scheme (t : String) (u : List Char)
    (htl : t.toList = '/' :: '/' :: u)
    (hlastT : ∀ c cs, t.toList.reverse = c :: cs → pySpace c = false) :
    pyStarts ("http:" ++ t) "http" = true ∧
      FS.normalize_url (some ("http:" ++ t)) = some ("http:" ++ t) ∧
      FRS.normalize_url (some ("http:" ++ t)) = some ("http:" ++ t) := by
  have hlit : ("http:" : String).toList = ['h', 't', 't', 'p', ':'] := by decide
  have hsl : ("http:" ++ t).toList = ['h', 't', 't', 'p', ':'] ++ '/' :: '/' :: u := by
    rw [toList_append, hlit, htl]
  have hne : ("http:" ++ t) ≠ "" := by
    apply ne_empty_of_toList_cons
    rw [hsl]
    rfl
  have hh4 : pyStarts ("http:" ++ t) "http" = true := by
    have hp : ("http" : String).toList = ['h', 't', 't', 'p'] := by decide
    rw [pyStarts, hp, hsl]
    simp [swChars]
  have hrev : ∃ c0 cs0, ("http:" ++ t).toList.reverse = c0 :: cs0 ∧ pySpace c0 = false := by
    cases hr : t.toList.reverse with
    | nil =>
      exfalso
      have h2 := congrArg List.reverse hr
      rw [List.reverse_reverse, htl] at h2
      simp at h2
    | cons c0 cs0 =>
      refine ⟨c0, cs0 ++ ("http:" : String).toList.reverse, ?_, hlastT c0 cs0 hr⟩
      rw [toList_append, List.reverse_append, hr]
      rfl
  have hstrip : pyStrip ("http:" ++ t) = "http:" ++ t := by
    apply pyStrip_fix
    · intro c cs hc
      rw [hsl] at hc
      obtain ⟨hc1, _⟩ := List.cons.injEq .. ▸ hc
      rw [← hc1]
      decide
    · intro c cs hc
      obtain ⟨c0, cs0, hr, hc0⟩ := hrev
      rw [hr] at hc
      obtain ⟨hc1, _⟩ := List.cons.injEq .. ▸ hc
      rw [← hc1]
      exact hc0
  have hff : pyStarts ("http:" ++ t) "//" = false := by
    have hp : ("//" : String).toList = ['/', '/'] := by decide
    rw [pyStarts, hp, hsl]
    simp [swChars]
  have hf : pyStarts ("http:" ++ t) "/" = false := by
    have hp : ("/" : String).toList = ['/'] := by decide
    rw [pyStarts, hp, hsl]
    simp [swChars]
  have hh7 : pyStarts ("http:" ++ t) "http://" = true := by
    have hp : ("http://" : String).toList = ['h', 't', 't', 'p', ':', '/', '/'] := by decide
    rw [pyStarts, hp, hsl]
    simp [swChars]
  refine ⟨hh4, ?_, ?_⟩
  · simp [FS.normalize_url, hne, hstrip, hff, hf, hh7]
  · simp [FRS.normalize_url, hne, hstrip, hff, hf, hh4]

/-- Helper: the `"/"`-branch output `BASE ++ t` of both `normalize_url`
variants starts with `"http"` and is a fixed point of both. -/
theorem norm_out_base (t : String) (u : List Char)
    (htl : t.toList = '/' :: u)
    (hlastT : ∀ c cs, t.toList.reverse = c :: cs → pySpace c = false) :
    pyStarts (BASE ++ t) "http" = true ∧
      FS.normalize_url (some (BASE ++ t)) = some (BASE ++ t) ∧
      FRS.normalize_url (some (BASE ++ t)) = some (BASE ++ t) := by
  have hlit : BASE.toList =
      ['h', 't', 't', 'p', ':', '/', '/', 'u', 'f', 'c', 's', 't', 'a', 't', 's', '.',
        'c', 'o', 'm'] := by decide
  have hsl : (BASE ++ t).toList =
      ['h', 't', 't', 'p', ':', '/', '/', 'u', 'f', 'c', 's', 't', 'a', 't', 's', '.',
        'c', 'o', 'm'] ++ '/' :: u := by
    rw [toList_append, hlit, htl]
  have hne : (BASE ++ t) ≠ "" := by
    apply ne_empty_of_toList_cons
    rw [hsl]
    rfl
  have hh4 : pyStarts (BASE ++ t) "http" = true := by
    have hp : ("http" : String).toList = ['h', 't', 't', 'p'] := by decide
    rw [pyStarts, hp, hsl]
    simp [swChars]
  have hrev : ∃ c0 cs0, (BASE ++ t).toList.reverse = c0 :: cs0 ∧ pySpace c0 = false := by
    cases hr : t.toList.reverse with
    | nil =>
      exfalso
      have h2 := congrArg List.reverse hr
      rw [List.reverse_reverse, htl] at h2
      simp at h2
    | cons c0 cs0 =>
      refine ⟨c0, cs0 ++ BASE.toList.reverse, ?_, hlastT c0 cs0 hr⟩
      rw [toList_append, List.reverse_append, hr]
      rfl
  have hstrip : pyStrip (BASE ++ t) = BASE ++ t := by
    apply pyStrip_fix
    · intro c cs hc
      rw [hsl] at hc
      obtain ⟨hc1, _⟩ := List.cons.injEq .. ▸ hc
      rw [← hc1]
      decide
    · intro c cs hc
      obtain ⟨c0, cs0, hr, hc0⟩ := hrev
      rw [hr] at hc
      obtain ⟨hc1, _⟩ := List.cons.injEq .. ▸ hc
      rw [← hc1]
      exact hc0
  have hff : pyStarts (BASE ++ t) "//" = false := by
    have hp : ("//" : String).toList = ['/', '/'] := by decide
    rw [pyStarts, hp, hsl]
    simp [swChars]
  have hf : pyStarts (BASE ++ t) "/" = false := by
    have hp : ("/" : String).toList = ['/'] := by decide
    rw [pyStarts, hp, hsl]
    simp [swChars]
  have hh7 : pyStarts (BASE ++ t) "http://" = true := by
    have hp : ("http://" : String).toList = ['h', 't', 't', 'p', ':', '/', '/'] := by decide
    rw [pyStarts, hp, hsl]
    simp [swChars]
  refine ⟨hh4, ?_, ?_⟩
  · simp [FS.normalize_url, hne, hstrip, hff, hf, hh7]
  · simp [FRS.normalize_url, hne, hstrip, hff, hf, hh4]

/-- Helper: the default-branch output `BASE ++ "/" ++ t` of both
`normalize_url` variants starts with `"http"` and is a fixed point of both. -/
theorem norm_out_rel (t : String)
    (hlastT : ∀ c cs, t.toList.reverse = c :: cs → pySpace c = false) :
    pyStarts (BASE ++ "/" ++ t) "http" = true ∧
      FS.normalize_url (some (BASE ++ "/" ++ t)) = some (BASE ++ "/" ++ t) ∧
      FRS.normalize_url (some (BASE ++ "/" ++ t)) = some (BASE ++ "/" ++ t) := by
  have hlit : (BASE ++ "/").toList =
      ['h', 't', 't', 'p', ':', '/', '/', 'u', 'f', 'c', 's', 't', 'a', 't', 's', '.',
        'c', 'o', 'm', '/'] := by decide
  have hsl : (BASE ++ "/" ++ t).toList =
      ['h', 't', 't', 'p', ':', '/', '/', 'u', 'f', 'c', 's', 't', 'a', 't', 's', '.',
        'c', 'o', 'm', '/'] ++ t.toList := by
    rw [toList_append, hlit]
  have hne : (BASE ++ "/" ++ t) ≠ "" := by
    apply ne_empty_of_toList_cons
    rw [hsl]
    rfl
  have hh4 : pyStarts (BASE ++ "/" ++ t) "http" = true := by
    have hp : ("http" : String).toList = ['h', 't', 't', 'p'] := by decide
    rw [pyStarts, hp, hsl]
    simp [swChars]
  have hrev : ∃ c0 cs0, (BASE ++ "/" ++ t).toList.reverse = c0 :: cs0 ∧ pySpace c0 = false := by
    cases hr : t.toList.reverse with
    | nil =>
      have h2 := congrArg List.reverse hr
      rw [List.reverse_reverse] at h2
      refine ⟨'/', ['m', 'o', 'c', '.', 's', 't', 'a', 't', 's', 'c', 'f', 'u', '/', '/',
        ':', 'p', 't', 't', 'h'], ?_, by decide⟩
      rw [hsl, h2]
      decide
    | cons c0 cs0 =>
      refine ⟨c0, cs0 ++ (BASE ++ "/").toList.reverse, ?_, hlastT c0 cs0 hr⟩
      rw [toList_append, List.reverse_append, hr]
      rfl
  have hstrip : pyStrip (BASE ++ "/" ++ t) = BASE ++ "/" ++ t := by
    apply pyStrip_fix
    · intro c cs hc
      rw [hsl] at hc
      obtain ⟨hc1, _⟩ := List.cons.injEq .. ▸ hc
      rw [← hc1]
      decide
    · intro c cs hc
      obtain ⟨c0, cs0, hr, hc0⟩ := hrev
      rw [hr] at hc
      obtain ⟨hc1, _⟩ := List.cons.injEq .. ▸ hc
      rw [← hc1]
      exact hc0
  have hff : pyStarts (BASE ++ "/" ++ t) "//" = false := by
    have hp : ("//" : String).toList = ['/', '/'] := by decide
    rw [pyStarts, hp, hsl]
    simp [swChars]
  have hf : pyStarts (BASE ++ "/" ++ t) "/" = false := by
    have hp : ("/" : String).toList = ['/'] := by decide
    rw [pyStarts, hp, hsl]
    simp [swChars]
  have hh7 : pyStarts (BASE ++ "/" ++ t) "http://" = true := by
    have hp : ("http://" : String).toList = ['h', 't', 't', 'p', ':', '/', '/'] := by decide
    rw [pyStarts, hp, hsl]
    simp [swChars]
  refine ⟨hh4, ?_, ?_⟩
  · simp [FS.normalize_url, hne, hstrip, hff, hf, hh7]
  · simp [FRS.normalize_url, hne, hstrip, hff, hf, hh4]

/-- Helper: a stripped string starting with `"http"` passes unchanged through
the branch tests of the fighter scraper's `normalize_url`. -/
theorem norm_out_pass (t : String) (hstrip : pyStrip t = t)
    (hh4 : pyStarts t "http" = true) :
    t ≠ "" ∧ pyStarts t "//" = false ∧ pyStarts t "/" = false ∧
      FRS.normalize_url (some t) = some t := by
  have hp : ("http" : String).toList = ['h', 't', 't', 'p'] := by decide
  have hc : swChars ['h', 't', 't', 'p'] t.toList = true := by
    rw [pyStarts, hp] at hh4
    exact hh4
  obtain ⟨u, htl, _⟩ := swChars_cons_iff.mp hc
  have hne : t ≠ "" := ne_empty_of_toList_cons htl
  have hff : pyStarts t "//" = false := by
    have hp2 : ("//" : String).toList = ['/', '/'] := by decide
    rw [pyStarts, hp2, htl]
    simp [swChars]
  have hf : pyStarts t "/" = false := by
    have hp2 : ("/" : String).toList = ['/'] := by decide
    rw [pyStarts, hp2, htl]
    simp [swChars]
  exact ⟨hne, hff, hf, by simp [FRS.normalize_url, hne, hstrip, hff, hf, hh4]⟩

/-- Helper: soundness of the fight scraper's `normalize_url` — every non-`none`
output starts with `"http"` and is a fixed point. -/
theorem FS_normalize_sound (h s : String) (h0 : h ≠ "")
    (hres : FS.normalize_url (some h) = some s) :
    pyStarts s "http" = true ∧ FS.normalize_url (some s) = some s := by
  have hlastT : ∀ c cs, (pyStrip h).toList.reverse = c :: cs → pySpace c = false := by
    intro c cs hc
    rw [pyStrip_toList] at hc
    exact stripChars_rev_head_false hc
  simp only [FS.normalize_url, if_neg h0] at hres
  by_cases hc1 : pyStarts (pyStrip h) "//" = true
  · rw [if_pos hc1] at hres
    have hs := Option.some.inj hres
    subst hs
    have hp2 : ("//" : String).toList = ['/', '/'] := by decide
    have hc1' : swChars ['/', '/'] (pyStrip h).toList = true := by
      rw [pyStarts, hp2] at hc1
      exact hc1
    obtain ⟨u1, hEq1, hu1⟩ := swChars_cons_iff.mp hc1'
    obtain ⟨u2, hEq2, _⟩ := swChars_cons_iff.mp hu1
    have htl : (pyStrip h).toList = '/' :: '/' :: u2 := by rw [hEq1, hEq2]
    obtain ⟨ha, hb, _⟩ := norm_out_scheme (pyStrip h) u2 htl hlastT
    exact ⟨ha, hb⟩
  · rw [if_neg hc1] at hres
    by_cases hc2 : pyStarts (pyStrip h) "/" = true
    · rw [if_pos hc2] at hres
      have hs := Option.some.inj hres
      subst hs
      have hp2 : ("/" : String).toList = ['/'] := by decide
      have hc2' : swChars ['/'] (pyStrip h).toList = true := by
        rw [pyStarts, hp2] at hc2
        exact hc2
      obtain ⟨u1, hEq1, _⟩ := swChars_cons_iff.mp hc2'
      obtain ⟨ha, hb, _⟩ := norm_out_base (pyStrip h) u1 hEq1 hlastT
      exact ⟨ha, hb⟩
    · rw [if_neg hc2] at hres
      by_cases hc3 : (pyStarts (pyStrip h) "http://" || pyStarts (pyStrip h) "https://") = true
      · rw [if_pos hc3] at hres
        have hs := Option.some.inj hres
        subst hs
        have hstrip : pyStrip (pyStrip h) = pyStrip h := pyStrip_idem h
        have hh4 : pyStarts (pyStrip h) "http" = true := by
          have hsplit7 : ("http://" : String).toList =
              ("http" : String).toList ++ [':', '/', '/'] := by decide
          have hsplit8 : ("https://" : String).toList =
              ("http" : String).toList ++ ['s', ':', '/', '/'] := by decide
          have hor : pyStarts (pyStrip h) "http://" = true ∨
              pyStarts (pyStrip h) "https://" = true := by
            simpa using hc3
          rcases hor with h7 | h8
          · rw [pyStarts, hsplit7] at h7
            rw [pyStarts]
            exact swChars_pattern_shorten _ _ _ h7
          · rw [pyStarts, hsplit8] at h8
            rw [pyStarts]
            exact swChars_pattern_shorten _ _ _ h8
        obtain ⟨hne, hff, hf, _⟩ := norm_out_pass (pyStrip h) hstrip hh4
        refine ⟨hh4, ?_⟩
        simp [FS.normalize_url, hne, hstrip, hff, hf, hc3]
      · rw [if_neg hc3] at hres
        have hs := Option.some.inj hres
        subst hs
        obtain ⟨ha, hb, _⟩ := norm_out_rel (pyStrip h) hlastT
        exact ⟨ha, hb⟩

/-- Helper: soundness of the fighter scraper's `normalize_url` — every
non-`none` output starts with `"http"` and is a fixed point. -/
theorem FRS_normalize_sound (h s : String) (h0 : h ≠ "")
    (hres : FRS.normalize_url (some h) = some s) :
    pyStarts s "http" = true ∧ FRS.normalize_url (some s) = some s := by
  have hlastT : ∀ c cs, (pyStrip h).toList.reverse = c :: cs → pySpace c = false := by
    intro c cs hc
    rw [pyStrip_toList] at hc
    exact stripChars_rev_head_false hc
  simp only [FRS.normalize_url, if_neg h0] at hres
  by_cases hc1 : pyStarts (pyStrip h) "//" = true
  · rw [if_pos hc1] at hres
    have hs := Option.some.inj hres
    subst hs
    have hp2 : ("//" : String).toList = ['/', '/'] := by decide
    have hc1' : swChars ['/', '/'] (pyStrip h).toList = true := by
      rw [pyStarts, hp2] at hc1
      exact hc1
    obtain ⟨u1, hEq1, hu1⟩ := swChars_cons_iff.mp hc1'
    obtain ⟨u2, hEq2, _⟩ := swChars_cons_iff.mp hu1
    have htl : (pyStrip h).toList = '/' :: '/' :: u2 := by rw [hEq1, hEq2]
    obtain ⟨ha, _, hb⟩ := norm_out_scheme (pyStrip h) u2 htl hlastT
    exact ⟨ha, hb⟩
  · rw [if_neg hc1] at hres
    by_cases hc2 : pyStarts (pyStrip h) "/" = true
    · rw [if_pos hc2] at hres
      have hs := Option.some.inj hres
      subst hs
      have hp2 : ("/" : String).toList = ['/'] := by decide
      have hc2' : swChars ['/'] (pyStrip h).toList = true := by
        rw [pyStarts, hp2] at hc2
        exact hc2
      obtain ⟨u1, hEq1, _⟩ := swChars_cons_iff.mp hc2'
      obtain ⟨ha, _, hb⟩ := norm_out_base (pyStrip h) u1 hEq1 hlastT
      exact ⟨ha, hb⟩
    · rw [if_neg hc2] at hres
      by_cases hc3 : pyStarts (pyStrip h) "http" = true
      · rw [if_pos hc3] at hres
        have hs := Option.some.inj hres
        subst hs
        have hstrip : pyStrip (pyStrip h) = pyStrip h := pyStrip_idem h
        obtain ⟨hne, hff, hf, hfix⟩ := norm_out_pass (pyStrip h) hstrip hc3
        exact ⟨hc3, hfix⟩
      · rw [if_neg hc3] at hres
        have hs := Option.some.inj hres
        subst hs
        obtain ⟨ha, _, hb⟩ := norm_out_rel (pyStrip h) hlastT
        exact ⟨ha, hb⟩

/-- C10: totality and idempotence of both `normalize_url` variants.  The result
is `none` exactly for a `None` or empty href; every other href maps to a string
starting with `"http"`; and every non-`none` output is a fixed point, so the
discovered identity URLs are in fixed-point form. -/
theorem claim10_normalize_url :
    (∀ h : Option String, FS.normalize_url h = none ↔ (h = none ∨ h = some "")) ∧
    (∀ (h : Option String) (s : String), FS.normalize_url h = some s →
      pyStarts s "http" = true) ∧
    (∀ (h : Option String) (s : String), FS.normalize_url h = some s →
      FS.normalize_url (some s) = some s) ∧
    (∀ h : Option String, FRS.normalize_url h = none ↔ (h = none ∨ h = some "")) ∧
    (∀ (h : Option String) (s : String), FRS.normalize_url h = some s →
      pyStarts s "http" = true) ∧
    (∀ (h : Option String) (s : String), FRS.normalize_url h = some s →
      FRS.normalize_url (some s) = some s) := by
  have hFSex : ∀ (x : String), x ≠ "" → ∃ s, FS.normalize_url (some x) = some s := by
    intro x hx
    simp only [FS.normalize_url, if_neg hx]
    by_cases c1 : pyStarts (pyStrip x) "//" = true
    · exact ⟨_, by rw [if_pos c1]⟩
    · by_cases c2 : pyStarts (pyStrip x) "/" = true
      · exact ⟨_, by rw [if_neg c1, if_pos c2]⟩
      · by_cases c3 : (pyStarts (pyStrip x) "http://" || pyStarts (pyStrip x) "https://") = true
        · exact ⟨_, by rw [if_neg c1, if_neg c2, if_pos c3]⟩
        · exact ⟨_, by rw [if_neg c1, if_neg c2, if_neg c3]⟩
  have hFRSex : ∀ (x : String), x ≠ "" → ∃ s, FRS.normalize_url (some x) = some s := by
    intro x hx
    simp only [FRS.normalize_url, if_neg hx]
    by_cases c1 : pyStarts (pyStrip x) "//" = true
    · exact ⟨_, by rw [if_pos c1]⟩
    · by_cases c2 : pyStarts (pyStrip x) "/" = true
      · exact ⟨_, by rw [if_neg c1, if_pos c2]⟩
      · by_cases c3 : pyStarts (pyStrip x) "http" = true
        · exact ⟨_, by rw [if_neg c1, if_neg c2, if_pos c3]⟩
        · exact ⟨_, by rw [if_neg c1, if_neg c2, if_neg c3]⟩
  refine ⟨?_, ?_, ?_, ?_, ?_, ?_⟩
  · intro h
    constructor
    · intro hr
      cases h with
      | none => exact Or.inl rfl
      | some hh =>
        by_cases hne : hh = ""
        · exact Or.inr (by rw [hne])
        · obtain ⟨s, hs⟩ := hFSex hh hne
          rw [hs] at hr
          cases hr
    · rintro (rfl | rfl)
      · rfl
      · rfl
  · intro h s hr
    cases h with
    | none => simp [FS.normalize_url] at hr
    | some hh =>
      by_cases hne : hh = ""
      · rw [hne] at hr
        simp [FS.normalize_url] at hr
      · exact (FS_normalize_sound hh s hne hr).1
  · intro h s hr
    cases h with
    | none => simp [FS.normalize_url] at hr
    | some hh =>
      by_cases hne : hh = ""
      · rw [hne] at hr
        simp [FS.normalize_url] at hr
      · exact (FS_normalize_sound hh s hne hr).2
  · intro h
    constructor
    · intro hr
      cases h with
      | none => exact Or.inl rfl
      | some hh =>
        by_cases hne : hh = ""
        · exact Or.inr (by rw [hne])
        · obtain ⟨s, hs⟩ := hFRSex hh hne
          rw [hs] at hr
          cases hr
    · rintro (rfl | rfl)
      · rfl
      · rfl
  · intro h s hr
    cases h with
    | none => simp [FRS.normalize_url] at hr
    | some hh =>
      by_cases hne : hh = ""
      · rw [hne] at hr
        simp [FRS.normalize_url] at hr
      · exact (FRS_normalize_sound hh s hne hr).1
  · intro h s hr
    cases h with
    | none => simp [FRS.normalize_url] at hr
    | some hh =>
      by_cases hne : hh = ""
      · rw [hne] at hr
        simp [FRS.normalize_url] at hr
      · exact (FRS_normalize_sound hh s hne hr).2

/-- C10: witness for `claim10_normalize_url` — a root-relative href maps to a
full URL starting with `"http"` that both variants leave unchanged, and an
absolute-looking href passes through the fighter variant unchanged. -/
theorem claim10_witness :
    pyStarts "http://ufcstats.com/x" "http" = true ∧
      FS.normalize_url (some "http://ufcstats.com/x") = some "http://ufcstats.com/x" ∧
      FRS.normalize_url (some "httpfoo") = some "httpfoo" :=
  ⟨claim10_normalize_url.2.1 (some "/x") "http://ufcstats.com/x" (by decide),
    claim10_normalize_url.2.2.1 (some "/x") "http://ufcstats.com/x" (by decide),
    claim10_normalize_url.2.2.2.2.2 (some "httpfoo") "httpfoo" (by decide)⟩

end UFCScrape
